import Mathlib

/-!
# Star catalog: pairwise angular distance statistics

A shallow embedding of `src/main.c`: the coverage matrix `distance_calculated`, the
running statistics (`count`, `mean`, `min`, `max`), the sequential double loop
`determineAverageAngularDistance`, the per-worker loop
`determineAverageAngularDistance_threaded`, and the dispatch at the end of `main`.

Modelling conventions.
* `double` values are exact rationals (`ℚ`); comparisons of doubles are exact, so the
  `min` / `max` updates are modelled faithfully, while the running mean is the
  exact-arithmetic mean (rounding of `double` operations is not modelled). The conversion
  of the returned `double` to the return type `float` of
  `determineAverageAngularDistance` is modelled (`narrowToFloat`).
* `NUM_STARS` is the parameter `N` of the loops; the program fixes it to `30000`.
* `uint64_t count` is a `Nat`: it is incremented once per newly marked pair, at most
  `N * (N - 1) / 2` times, which is below `2 ^ 64` for every `N` a `uint32_t` loop index
  can reach (`count_fits_uint64`).
* `calculateAngularDistance` (declared in `utility.h`) is a parameter.
* The array `pthread_t tid[num_threads]` that `main` allocates on its stack before it tests
  `num_threads` is modelled by its size in bytes against the stack that is left
  (`mainDispatch`).
* A worker is modelled twice: run to completion on its own (`threadBody`, `threadRow`,
  `determineAverageAngularDistance_threaded`), and statement by statement under a
  schedule that interleaves the workers (`step`, `runSchedule`), where
  `pthread_mutex_lock` waits while another worker holds the mutex. One pass through the
  loop body run without interruption is `threadBody` (`iteration_uninterrupted`).
-/

namespace StarCatalog

/-! ## Constants, records and globals -/

/-- The constant `NUM_STARS` of `main.c`. -/
def NUM_STARS : Nat := 30000

/-- The constant `MAX_THREADS` of `main.c`. -/
def MAX_THREADS : Nat := 1000

/-- The value of `FLT_MAX` (largest finite `float`), `(2 - 2^-23) * 2^127`. -/
def FLT_MAX : ℚ := 340282346638528859811704183484516925440

/-- The value of `FLT_MIN` (smallest positive normalised `float`), `2^-126`. -/
def FLT_MIN : ℚ := 1 / 2 ^ 126

/-- Modelled from the spec: the record `struct Star`, declared in `star.h`, which is not
among the sources. The spec's CatalogRecord (integer id, right ascension, declination), with
the field names that `main` and the two scans use. -/
structure Star where
  ID : Int
  RightAscension : ℚ
  Declination : ℚ

/-- The type of `calculateAngularDistance (ra1, dec1, ra2, dec2)`, declared in `utility.h`,
which is not among the sources: the scans take the function as a parameter. -/
abbrev DistanceFn := ℚ → ℚ → ℚ → ℚ → ℚ

/-- The global variables of `main.c` that the computation reads and writes. -/
structure Globals where
  distance_calculated : Nat → Nat → Nat
  min : ℚ
  max : ℚ
  mean_thread : ℚ
  count : Nat

/-- The globals as `main` leaves them before the computation: the matrix zeroed by the
double loop of lines 164-170, `min = FLT_MAX`, `max = FLT_MIN`, `mean_thread = 0`,
`count = 0`. -/
def initGlobals : Globals :=
  { distance_calculated := fun _ _ => 0
    min := FLT_MAX
    max := FLT_MIN
    mean_thread := 0
    count := 0 }

/-- The assignment `m[i][j] = v` on the matrix. -/
def setCell (m : Nat → Nat → Nat) (i j v : Nat) : Nat → Nat → Nat :=
  fun a b => if a = i ∧ b = j then v else m a b

/-- The array `star_array` after `main` has read `records` (lines 195-227): the first
`records.length` slots hold the records, the other slots of the zero-initialised global
array are untouched. -/
def loadCatalog (records : List Star) : Nat → Star :=
  fun i => records.getD i { ID := 0, RightAscension := 0, Declination := 0 }

/-! ## The sequential path -/

/-- The state of `determineAverageAngularDistance`: the globals together with its two
locals `mean` and `count` (the local `count` shadows the global one). -/
structure SeqState where
  g : Globals
  mean : ℚ
  count : Nat

/-- The body of the inner loop of `determineAverageAngularDistance` (lines 75-93). -/
def seqBody (calculateAngularDistance : DistanceFn) (arr : Nat → Star) (i j : Nat)
    (s : SeqState) : SeqState :=
  if i ≠ j ∧ s.g.distance_calculated i j = 0 then
    let distance := calculateAngularDistance (arr i).RightAscension (arr i).Declination
      (arr j).RightAscension (arr j).Declination
    let dc := setCell (setCell s.g.distance_calculated i j 1) j i 1
    let count := s.count + 1
    let min := if s.g.min > distance then distance else s.g.min
    let max := if s.g.max < distance then distance else s.g.max
    let mean := s.mean + (distance - s.mean) / (count : ℚ)
    { g := { s.g with distance_calculated := dc, min := min, max := max }
      mean := mean
      count := count }
  else s

/-- The inner loop `for (j = 0; j < NUM_STARS; j++)` of the sequential path on row `i`. -/
def seqRow (N : Nat) (calculateAngularDistance : DistanceFn) (arr : Nat → Star) (i : Nat)
    (s : SeqState) : SeqState :=
  (List.range N).foldl (fun s j => seqBody calculateAngularDistance arr i j s) s

/-- The two loops of `determineAverageAngularDistance` (lines 65-95): both run over
`0 .. N-1`; the locals start at `mean = 0`, `count = 0`. The result is the state when the
loops are left. -/
def seqLoops (N : Nat) (calculateAngularDistance : DistanceFn)
    (arr : Nat → Star) (g : Globals) : SeqState :=
  (List.range N).foldl (fun s i => seqRow N calculateAngularDistance arr i s)
    { g := g, mean := 0, count := 0 }

/-- The nearest integer, ties to the even one. -/
def roundHalfEven (q : ℚ) : Int :=
  if q - (⌊q⌋ : ℚ) < 1 / 2 then ⌊q⌋
  else if q - (⌊q⌋ : ℚ) > 1 / 2 then ⌊q⌋ + 1
  else if ⌊q⌋ % 2 = 0 then ⌊q⌋ else ⌊q⌋ + 1

/-- The conversion of a `double` to `float` (round to nearest, ties to even): a `float` has
a 24-bit significand, so in the binade `2^e ≤ |x| < 2^(e+1)` the floats are the multiples of
`2^(e-23)`, with `e` no smaller than `-126` (below that the floats are the multiples of
`2^-149`). There is no rational result (`none`) when the rounded value exceeds `FLT_MAX`:
the conversion gives an infinity. -/
def narrowToFloat (x : ℚ) : Option ℚ :=
  if x = 0 then some 0
  else if (roundHalfEven (|x| / 2 ^ (max (Int.log 2 |x|) (-126) - 23)) : ℚ)
      * 2 ^ (max (Int.log 2 |x|) (-126) - 23) > FLT_MAX then none
  else if x < 0 then
    some (-((roundHalfEven (|x| / 2 ^ (max (Int.log 2 |x|) (-126) - 23)) : ℚ)
      * 2 ^ (max (Int.log 2 |x|) (-126) - 23)))
  else
    some ((roundHalfEven (|x| / 2 ^ (max (Int.log 2 |x|) (-126) - 23)) : ℚ)
      * 2 ^ (max (Int.log 2 |x|) (-126) - 23))

/-- What `determineAverageAngularDistance` leaves behind: the state at the `return`
(globals and the locals `mean`, `count`) and the value it returns, a `float`. -/
structure SeqReturn extends SeqState where
  result : Option ℚ

/-- The function `float determineAverageAngularDistance` (lines 63-97): the two loops, then
`return mean`, which converts the `double mean` to the return type `float` (line 96). -/
def determineAverageAngularDistance (N : Nat) (calculateAngularDistance : DistanceFn)
    (arr : Nat → Star) (g : Globals) : SeqReturn :=
  { toSeqState := seqLoops N calculateAngularDistance arr g
    result := narrowToFloat (seqLoops N calculateAngularDistance arr g).mean }

/-! ## The threaded path, one worker at a time -/

/-- The body of the inner loop of `determineAverageAngularDistance_threaded`
(lines 113-134), run without interruption by another worker. -/
def threadBody (calculateAngularDistance : DistanceFn) (star_array : Nat → Star)
    (i j : Nat) (g : Globals) : Globals :=
  if i ≠ j ∧ g.distance_calculated i j = 0 then
    let distance := calculateAngularDistance
      (star_array i).RightAscension (star_array i).Declination
      (star_array j).RightAscension (star_array j).Declination
    let dc := setCell (setCell g.distance_calculated i j 1) j i 1
    let count := g.count + 1
    let min := if g.min > distance then distance else g.min
    let max := if g.max < distance then distance else g.max
    let mean_thread := g.mean_thread + (distance - g.mean_thread) / (count : ℚ)
    { distance_calculated := dc, min := min, max := max, mean_thread := mean_thread,
      count := count }
  else g

/-- The inner loop `for (j = 0; j < NUM_STARS; j++)` of a worker on row `i`. -/
def threadRow (N : Nat) (calculateAngularDistance : DistanceFn) (star_array : Nat → Star)
    (i : Nat) (g : Globals) : Globals :=
  (List.range N).foldl (fun g j => threadBody calculateAngularDistance star_array i j g) g

/-- The `int start` of worker `t` (line 105): `(NUM_STARS / num_threads) * t`. -/
def threadStart (N T t : Nat) : Int := ((N / T : Nat) : Int) * (t : Int)

/-- The `int end` of worker `t` (line 106): `(NUM_STARS / num_threads) * (t + 1) - 1`. -/
def threadEnd (N T t : Nat) : Int := ((N / T : Nat) : Int) * ((t : Int) + 1) - 1

/-- The rows `start, start + 1, ..., end` of the loop `for (i = start; i <= end; i++)`,
for `0 <= start` and `-1 <= end`. -/
def rowsFromTo (start stop : Int) : List Nat :=
  List.range' start.toNat (stop + 1 - start).toNat

/-- The function `determineAverageAngularDistance_threaded` (lines 100-140) for worker
`t` of `T`, run to completion on its own. There is no result when `T = 0` (division by
zero) and when `end` is negative: `i <= end` compares the `uint32_t i` with `end`
converted to unsigned, so for `end = -1` the row loop runs past the matrix. -/
def determineAverageAngularDistance_threaded (N T : Nat)
    (calculateAngularDistance : DistanceFn) (star_array : Nat → Star) (t : Nat)
    (g : Globals) : Option Globals :=
  if T = 0 then none
  else if threadEnd N T t < 0 then none
  else
    some ((rowsFromTo (threadStart N T t) (threadEnd N T t)).foldl
      (fun g i => threadRow N calculateAngularDistance star_array i g) g)

/-- The workers listed in `order` run one after another, each to completion. -/
def runWorkers (N T : Nat) (calculateAngularDistance : DistanceFn)
    (star_array : Nat → Star) : List Nat → Globals → Option Globals
  | [], g => some g
  | t :: rest, g =>
    match determineAverageAngularDistance_threaded N T calculateAngularDistance star_array t g with
    | none => none
    | some g1 => runWorkers N T calculateAngularDistance star_array rest g1

/-- Row `i` lies in the range `[start, end]` of worker `t`. -/
def inRowRange (N T t i : Nat) : Prop :=
  threadStart N T t ≤ (i : Int) ∧ (i : Int) ≤ threadEnd N T t

instance (N T t i : Nat) : Decidable (inRowRange N T t i) := by
  unfold inRowRange
  infer_instance

/-! ## The statistics -/

/-- The statistics `count`, `mean`, `min`, `max`. -/
structure Acc where
  count : Nat
  mean : ℚ
  min : ℚ
  max : ℚ
deriving DecidableEq

/-- The accumulator update of lines 81-92 (and 121-132) for one distance:
`count++`, the `min` test, the `max` test, `mean = mean + (distance - mean) / count`. -/
def accumulate (a : Acc) (distance : ℚ) : Acc :=
  let count := a.count + 1
  let min := if a.min > distance then distance else a.min
  let max := if a.max < distance then distance else a.max
  let mean := a.mean + (distance - a.mean) / (count : ℚ)
  { count := count, mean := mean, min := min, max := max }

/-- The statistics held by the sequential path: locals `count`, `mean`, globals `min`, `max`. -/
def SeqState.acc (s : SeqState) : Acc :=
  { count := s.count, mean := s.mean, min := s.g.min, max := s.g.max }

/-- The statistics held by the threaded path: globals `count`, `mean_thread`, `min`, `max`. -/
def Globals.acc (g : Globals) : Acc :=
  { count := g.count, mean := g.mean_thread, min := g.min, max := g.max }

/-- The statistics before any update: `count = 0`, `mean = 0`, `min = FLT_MAX`,
`max = FLT_MIN`. -/
def initAcc : Acc := { count := 0, mean := 0, min := FLT_MAX, max := FLT_MIN }

/-! ## The dispatch in `main` -/

/-- The two distance computations `main` can run. -/
inductive Path
  | threaded
  | sequential
deriving DecidableEq

/-- The size in bytes of a `pthread_t` (an `unsigned long` on 64-bit Linux). -/
def sizeof_pthread_t : Nat := 8

/-- How the program ends: `exit` / `return` with a status, or killed by `SIGSEGV`. -/
inductive Ending
  | exit (status : Nat)
  | sigsegv
deriving DecidableEq

/-- What `main` does from line 237 on: the computation it runs, whether the three lines
`Average / Minimum / Maximum distance found is ...` are printed, and how it ends. -/
structure MainOutcome where
  path : Option Path
  report : Bool
  ending : Ending
deriving DecidableEq

/-- Lines 237-291 of `main` for the `int num_threads`, with `stackBytes` bytes of stack left.
Line 237 allocates `pthread_t tid[num_threads]` on the stack before `num_threads` is tested:
a negative size has no defined behaviour (`none`); an array larger than the stack that is
left moves the stack pointer out of the stack, and the call of line 240 is killed by
`SIGSEGV`. Otherwise the `if` / `else if` / `else` of lines 245-280 runs, followed by the
report of lines 286-291 when the program has not called `exit(1)`. -/
def mainDispatch (stackBytes : Nat) (num_threads : Int) : Option MainOutcome :=
  if num_threads < 0 then none
  else if (sizeof_pthread_t : Int) * num_threads > (stackBytes : Int) then
    some { path := none, report := false, ending := Ending.sigsegv }
  else if num_threads > 0 ∧ num_threads ≤ (MAX_THREADS : Int) then
    some { path := some Path.threaded, report := true, ending := Ending.exit 0 }
  else if num_threads = 0 then
    some { path := some Path.sequential, report := true, ending := Ending.exit 0 }
  else
    some { path := none, report := false, ending := Ending.exit 1 }

/-! ## Interleaved workers -/

/-- The program points of a worker: the statements of one pass through the body of the inner
loop (lines 113-134), and `done` after the loops. -/
inductive Pc
  | test
  | compute
  | mark1
  | mark2
  | lock
  | incr
  | setMin
  | setMax
  | setMean
  | unlock
  | done
deriving DecidableEq

/-- The locals of a worker: its program point, the loop counters `i` and `j`, the bound
`end + 1` of the row loop, and the local `distance`. -/
structure Worker where
  pc : Pc
  i : Nat
  j : Nat
  stop : Nat
  distance : ℚ

/-- The globals, the holder of `mutex` (if any), and the locals of every worker. -/
structure Config where
  g : Globals
  mutex : Option Nat
  workers : Nat → Worker

/-- The loop headers after a pass through the body: `j++` and the test `j < NUM_STARS`, then
`i++` and the test `i <= end`. For `N ≥ 1`. -/
def Worker.next (N : Nat) (w : Worker) : Worker :=
  if w.j + 1 < N then { w with pc := Pc.test, j := w.j + 1 }
  else if w.i + 1 < w.stop then { w with pc := Pc.test, i := w.i + 1, j := 0 }
  else { w with pc := Pc.done }

/-- The locals of worker `t` replaced by `w`. -/
def Config.set (c : Config) (t : Nat) (w : Worker) : Config :=
  { c with workers := fun u => if u = t then w else c.workers u }

/-- One statement of worker `t`; `none` when the worker cannot move: it has returned, or it
waits in `pthread_mutex_lock` for a mutex that is held. -/
def step (N : Nat) (calculateAngularDistance : DistanceFn) (star_array : Nat → Star)
    (t : Nat) (c : Config) : Option Config :=
  match (c.workers t).pc with
  | Pc.test =>
    if (c.workers t).i ≠ (c.workers t).j
        ∧ c.g.distance_calculated (c.workers t).i (c.workers t).j = 0 then
      some (c.set t { c.workers t with pc := Pc.compute })
    else some (c.set t ((c.workers t).next N))
  | Pc.compute =>
    some (c.set t { c.workers t with
      pc := Pc.mark1,
      distance := (calculateAngularDistance
        (star_array (c.workers t).i).RightAscension (star_array (c.workers t).i).Declination
        (star_array (c.workers t).j).RightAscension (star_array (c.workers t).j).Declination) })
  | Pc.mark1 =>
    some (Config.set
      { c with g := { c.g with distance_calculated :=
          (setCell c.g.distance_calculated (c.workers t).i (c.workers t).j 1) } }
      t { c.workers t with pc := Pc.mark2 })
  | Pc.mark2 =>
    some (Config.set
      { c with g := { c.g with distance_calculated :=
          (setCell c.g.distance_calculated (c.workers t).j (c.workers t).i 1) } }
      t { c.workers t with pc := Pc.lock })
  | Pc.lock =>
    match c.mutex with
    | none => some (Config.set { c with mutex := some t } t { c.workers t with pc := Pc.incr })
    | some _ => none
  | Pc.incr =>
    some (Config.set { c with g := { c.g with count := c.g.count + 1 } }
      t { c.workers t with pc := Pc.setMin })
  | Pc.setMin =>
    some (Config.set
      { c with g := { c.g with min :=
          (if c.g.min > (c.workers t).distance then (c.workers t).distance else c.g.min) } }
      t { c.workers t with pc := Pc.setMax })
  | Pc.setMax =>
    some (Config.set
      { c with g := { c.g with max :=
          (if c.g.max < (c.workers t).distance then (c.workers t).distance else c.g.max) } }
      t { c.workers t with pc := Pc.setMean })
  | Pc.setMean =>
    some (Config.set
      { c with g := { c.g with mean_thread :=
          (c.g.mean_thread + ((c.workers t).distance - c.g.mean_thread) / (c.g.count : ℚ)) } }
      t { c.workers t with pc := Pc.unlock })
  | Pc.unlock =>
    some (Config.set { c with mutex := none } t ((c.workers t).next N))
  | Pc.done => none

/-- The workers move in the sequence given by `schedule`; a worker that cannot move when its
turn comes is passed over. -/
def runSchedule (N : Nat) (calculateAngularDistance : DistanceFn) (star_array : Nat → Star)
    (schedule : List Nat) (c : Config) : Config :=
  schedule.foldl
    (fun c t => match step N calculateAngularDistance star_array t c with
      | some c1 => c1
      | none => c) c

/-- The configuration when the `T` workers have been created (for `T ≥ 1` and
`N / T ≥ 1`): worker `t` is at the test of its first visit `(start, 0)`. -/
def initConfig (N T : Nat) : Config :=
  { g := initGlobals
    mutex := none
    workers := fun t =>
      if t < T then
        { pc := Pc.test, i := N / T * t, j := 0, stop := N / T * (t + 1), distance := 0 }
      else { pc := Pc.done, i := 0, j := 0, stop := 0, distance := 0 } }

/-- The program points between `pthread_mutex_lock` and `pthread_mutex_unlock`. -/
def Pc.locked : Pc → Bool
  | Pc.incr => true
  | Pc.setMin => true
  | Pc.setMax => true
  | Pc.setMean => true
  | Pc.unlock => true
  | _ => false

/-- The program points at which the next statement of the worker is one of the four steps of
the update: a mark, `count++`, the `min` / `max` tests, the mean. -/
def Pc.updateStatement : Pc → Bool
  | Pc.mark1 => true
  | Pc.mark2 => true
  | Pc.incr => true
  | Pc.setMin => true
  | Pc.setMax => true
  | Pc.setMean => true
  | _ => false

/-- The program points at which a worker has done the first of the four steps of its update
(the mark of `[i][j]`) and not yet the last (the mean). -/
def Pc.midUpdate : Pc → Bool
  | Pc.mark2 => true
  | Pc.lock => true
  | Pc.incr => true
  | Pc.setMin => true
  | Pc.setMax => true
  | Pc.setMean => true
  | _ => false

/-- A worker is between lock and unlock exactly when it holds the mutex. -/
def MutexInv (c : Config) : Prop :=
  ∀ t, (c.workers t).pc.locked = true ↔ c.mutex = some t

/-! ## Notions used in the statements -/

/-- The distance the loop bodies compute for the visit `(i, j)`. -/
def pairDistance (calculateAngularDistance : DistanceFn) (arr : Nat → Star) (i j : Nat) : ℚ :=
  calculateAngularDistance (arr i).RightAscension (arr i).Declination
    (arr j).RightAscension (arr j).Declination

/-- The sequential state read as the globals of the threaded path: the locals `mean` and
`count` take the places of `mean_thread` and of the global `count`. -/
def SeqState.toGlobals (s : SeqState) : Globals :=
  { distance_calculated := s.g.distance_calculated
    min := s.g.min
    max := s.g.max
    mean_thread := s.mean
    count := s.count }

/-- The pairs `(i, j)` with `i < j < N`, row by row. -/
def upperPairs (N : Nat) : List (Nat × Nat) :=
  (List.range N).flatMap
    (fun i => ((List.range N).filter (fun j => decide (i < j))).map (fun j => (i, j)))

/-- The pairs `(a, b)` with `a < i` and `a < b < N`, row by row. -/
def upperPairsBelow (N i : Nat) : List (Nat × Nat) :=
  (List.range i).flatMap
    (fun a => ((List.range N).filter (fun b => decide (a < b))).map (fun b => (a, b)))

/-- The rows `rows` visited one after another, each against all `N` columns. -/
def threadRows (N : Nat) (calculateAngularDistance : DistanceFn) (star_array : Nat → Star)
    (rows : List Nat) (g : Globals) : Globals :=
  rows.foldl (fun g i => threadRow N calculateAngularDistance star_array i g) g

/-- The loop bodies of a worker run at the visits `vs`, in that sequence. -/
def threadVisits (calculateAngularDistance : DistanceFn) (star_array : Nat → Star)
    (vs : List (Nat × Nat)) (g : Globals) : Globals :=
  vs.foldl (fun g v => threadBody calculateAngularDistance star_array v.1 v.2 g) g

/-- The loop bodies of the sequential path run at the visits `vs`, in that sequence. -/
def seqVisits (calculateAngularDistance : DistanceFn) (arr : Nat → Star)
    (vs : List (Nat × Nat)) (s : SeqState) : SeqState :=
  vs.foldl (fun s v => seqBody calculateAngularDistance arr v.1 v.2 s) s

/-- The visits of a scan of the rows `rows` against the columns `0 .. N-1`. -/
def rowVisits (N : Nat) (rows : List Nat) : List (Nat × Nat) :=
  rows.flatMap (fun i => (List.range N).map (fun j => (i, j)))

/-- The rows scanned by the workers of `order`, worker after worker. -/
def workerRows (N T : Nat) (order : List Nat) : List Nat :=
  order.flatMap (fun t => List.range' (N / T * t) (N / T))

/-- The sum of the cells of the `N × N` matrix: the number of set cells. -/
def cellSum (N : Nat) (m : Nat → Nat → Nat) : Nat :=
  ∑ a in Finset.range N, ∑ b in Finset.range N, m a b

/-- The matrix is symmetric with a zero diagonal. -/
def SymDiag (m : Nat → Nat → Nat) : Prop :=
  (∀ a b, m a b = m b a) ∧ (∀ a, m a a = 0)

/-- Twice the count is the number of set cells, the matrix is symmetric with a zero diagonal. -/
def CountInv (N : Nat) (g : Globals) : Prop :=
  SymDiag g.distance_calculated ∧ 2 * g.count = cellSum N g.distance_calculated

/-- The three records of the end-to-end scenario. -/
def catalog3 : List Star :=
  [{ ID := 1, RightAscension := 0, Declination := 0 },
   { ID := 2, RightAscension := 90, Declination := 0 },
   { ID := 3, RightAscension := 0, Declination := 90 }]

/-- A catalog of `NUM_STARS` records that all have the same coordinates. -/
def coincidingCatalog : List Star :=
  List.replicate NUM_STARS { ID := 1, RightAscension := 10, Declination := 20 }

/-- A stand-in for the black box that returns 90 for every pair. -/
def blackBox90 : DistanceFn := fun _ _ _ _ => 90

/-- A stand-in for the black box that returns `90 + 2^-20` for every pair, a `double` that
is not a `float`. -/
def blackBoxFine : DistanceFn := fun _ _ _ _ => 94371841 / 1048576

/-- A stand-in for the black box on coinciding stars: distance `0` between equal
coordinates, `90` otherwise. -/
def blackBoxEq : DistanceFn :=
  fun ra1 dec1 ra2 dec2 => if ra1 = ra2 ∧ dec1 = dec2 then 0 else 90

/-! ## The accumulator update -/

theorem accumulate_foldl_count (ds : List ℚ) (a : Acc) :
    (ds.foldl accumulate a).count = a.count + ds.length := by
  induction ds generalizing a with
  | nil => simp
  | cons d ds ih =>
    rw [List.foldl_cons, ih]
    simp only [accumulate, List.length_cons]
    omega

theorem accumulate_foldl_mean (ds : List ℚ) (a : Acc) :
    (ds.foldl accumulate a).mean * ((ds.foldl accumulate a).count : ℚ)
      = a.mean * (a.count : ℚ) + ds.sum := by
  induction ds generalizing a with
  | nil => simp
  | cons d ds ih =>
    rw [List.foldl_cons, ih, List.sum_cons]
    have h : ((a.count : ℚ) + 1) ≠ 0 := by positivity
    simp only [accumulate, Nat.cast_add, Nat.cast_one]
    field_simp
    ring

theorem accumulate_foldl_mean_eq (ds : List ℚ) (mn mx : ℚ) (h : ds ≠ []) :
    (ds.foldl accumulate { count := 0, mean := 0, min := mn, max := mx }).mean
      = ds.sum / (ds.length : ℚ) := by
  have h1 := accumulate_foldl_mean ds { count := 0, mean := 0, min := mn, max := mx }
  have h2 := accumulate_foldl_count ds { count := 0, mean := 0, min := mn, max := mx }
  have h3 : (ds.length : ℚ) ≠ 0 := by
    have : ds.length ≠ 0 := by
      intro h0
      exact h (List.length_eq_zero.mp h0)
    exact_mod_cast this
  rw [h2] at h1
  simp only [zero_add, Nat.cast_zero, mul_zero] at h1
  rw [eq_div_iff h3]
  exact h1

theorem accumulate_foldl_min (ds : List ℚ) (a : Acc) :
    (ds.foldl accumulate a).min = ds.foldl (fun m d => if m > d then d else m) a.min := by
  induction ds generalizing a with
  | nil => simp
  | cons d ds ih => rw [List.foldl_cons, ih]; rfl

theorem accumulate_foldl_max (ds : List ℚ) (a : Acc) :
    (ds.foldl accumulate a).max = ds.foldl (fun m d => if m < d then d else m) a.max := by
  induction ds generalizing a with
  | nil => simp
  | cons d ds ih => rw [List.foldl_cons, ih]; rfl

theorem foldl_max_stays (ds : List ℚ) (m : ℚ) (h : ∀ d ∈ ds, d ≤ m) :
    ds.foldl (fun m d => if m < d then d else m) m = m := by
  induction ds with
  | nil => rfl
  | cons d ds ih =>
    rw [List.foldl_cons, if_neg (not_lt.mpr (h d (List.mem_cons_self d ds)))]
    exact ih (fun x hx => h x (List.mem_cons_of_mem d hx))

theorem count_fits_uint64 (N : Nat) (h : N < 2 ^ 32) : N * (N - 1) / 2 < 2 ^ 64 := by
  have h1 : N * (N - 1) ≤ 2 ^ 32 * 2 ^ 32 :=
    Nat.mul_le_mul (le_of_lt h) (le_trans (Nat.sub_le N 1) (le_of_lt h))
  have h2 : (2 : Nat) ^ 32 * 2 ^ 32 = 2 ^ 64 := by norm_num
  have h3 : N * (N - 1) / 2 ≤ N * (N - 1) := Nat.div_le_self _ _
  have h4 : N * (N - 1) / 2 ≠ 2 ^ 64 := by
    intro h5
    have h6 : N * (N - 1) = 2 ^ 64 := by omega
    have h7 : N * (N - 1) < 2 ^ 32 * 2 ^ 32 := by
      rcases Nat.eq_zero_or_pos N with h0 | h0
      · subst h0; norm_num
      · exact Nat.mul_lt_mul_of_lt_of_le h (by omega) (by omega)
    omega
  omega

/-! ## The loop bodies -/

theorem seqBody_toGlobals (c : DistanceFn) (arr : Nat → Star) (i j : Nat) (s : SeqState) :
    (seqBody c arr i j s).toGlobals = threadBody c arr i j s.toGlobals := by
  unfold seqBody threadBody
  by_cases h : i ≠ j ∧ s.g.distance_calculated i j = 0
  · have h2 : i ≠ j ∧ s.toGlobals.distance_calculated i j = 0 := h
    rw [if_pos h, if_pos h2]
    rfl
  · have h2 : ¬ (i ≠ j ∧ s.toGlobals.distance_calculated i j = 0) := h
    rw [if_neg h, if_neg h2]

theorem seqRow_toGlobals (N : Nat) (c : DistanceFn) (arr : Nat → Star) (i : Nat)
    (s : SeqState) : (seqRow N c arr i s).toGlobals = threadRow N c arr i s.toGlobals := by
  unfold seqRow threadRow
  induction N with
  | zero => simp
  | succ n ih => rw [List.range_succ, List.foldl_append, List.foldl_append]
                 simp only [List.foldl_cons, List.foldl_nil]
                 rw [seqBody_toGlobals, ih]

theorem seqRows_toGlobals (N : Nat) (c : DistanceFn) (arr : Nat → Star) (rows : List Nat)
    (s : SeqState) :
    (rows.foldl (fun s i => seqRow N c arr i s) s).toGlobals
      = threadRows N c arr rows s.toGlobals := by
  unfold threadRows
  induction rows generalizing s with
  | nil => simp
  | cons r rows ih => rw [List.foldl_cons, List.foldl_cons, ih, seqRow_toGlobals]

theorem seqVisits_toGlobals (c : DistanceFn) (arr : Nat → Star) (vs : List (Nat × Nat))
    (s : SeqState) : (seqVisits c arr vs s).toGlobals = threadVisits c arr vs s.toGlobals := by
  unfold seqVisits threadVisits
  induction vs generalizing s with
  | nil => rfl
  | cons v vs ih => rw [List.foldl_cons, List.foldl_cons, ih, seqBody_toGlobals]

theorem seqBody_skip (c : DistanceFn) (arr : Nat → Star) (i j : Nat) (s : SeqState)
    (h : ¬ (i ≠ j ∧ s.g.distance_calculated i j = 0)) : seqBody c arr i j s = s := by
  unfold seqBody
  rw [if_neg h]

theorem threadBody_skip (c : DistanceFn) (arr : Nat → Star) (i j : Nat) (g : Globals)
    (h : ¬ (i ≠ j ∧ g.distance_calculated i j = 0)) : threadBody c arr i j g = g := by
  unfold threadBody
  rw [if_neg h]

theorem threadBody_fire (c : DistanceFn) (arr : Nat → Star) (i j : Nat) (g : Globals)
    (h : i ≠ j ∧ g.distance_calculated i j = 0) :
    (threadBody c arr i j g).distance_calculated
        = setCell (setCell g.distance_calculated i j 1) j i 1
      ∧ (threadBody c arr i j g).acc = accumulate g.acc (pairDistance c arr i j) := by
  unfold threadBody
  rw [if_pos h]
  exact ⟨rfl, rfl⟩

/-- One row of the matrix scan. Before the row, the set cells are the off-diagonal cells
with a row or a column in `D`; after the columns below `j` of row `i`, the cells `(i, b)`
and `(b, i)` with `b < j` are set as well, and the statistics have folded in the distances
of the columns that were not yet covered. -/
theorem threadRow_columns (N : Nat) (c : DistanceFn) (arr : Nat → Star) (D : Nat → Prop)
    [DecidablePred D] (i : Nat) (hi : i < N) (g : Globals)
    (hg : ∀ a b, g.distance_calculated a b
      = if a ≠ b ∧ a < N ∧ b < N ∧ (D a ∨ D b) then 1 else 0)
    (j : Nat) (hj : j ≤ N) :
    (∀ a b, ((List.range j).foldl (fun g j => threadBody c arr i j g) g).distance_calculated a b
      = if a ≠ b ∧ a < N ∧ b < N ∧ (D a ∨ D b ∨ (a = i ∧ b < j) ∨ (b = i ∧ a < j))
        then 1 else 0)
    ∧ ((List.range j).foldl (fun g j => threadBody c arr i j g) g).acc
      = (((List.range j).filter (fun b => decide (b ≠ i ∧ ¬ D b ∧ ¬ D i))).map
          (pairDistance c arr i)).foldl accumulate g.acc := by
  induction j with
  | zero =>
    refine ⟨fun a b => ?_, by simp⟩
    simp only [List.range_zero, List.foldl_nil, hg a b, Nat.not_lt_zero, and_false, or_false]
  | succ j ih =>
    obtain ⟨ih1, ih2⟩ := ih (by omega)
    rw [List.range_succ, List.foldl_append, List.filter_append, List.map_append,
      List.foldl_append]
    simp only [List.foldl_cons, List.foldl_nil]
    generalize (List.range j).foldl (fun g j => threadBody c arr i j g) g = gj at ih1 ih2
    by_cases hfire : i ≠ j ∧ gj.distance_calculated i j = 0
    · obtain ⟨hdc, hacc⟩ := threadBody_fire c arr i j gj hfire
      have hD : ¬ D i ∧ ¬ D j := by
        have h0 := hfire.2
        rw [ih1 i j] at h0
        by_contra hcon
        rw [if_pos] at h0
        · exact one_ne_zero h0
        · refine ⟨hfire.1, hi, by omega, ?_⟩
          by_cases h1 : D i
          · exact Or.inl h1
          · by_cases h2 : D j
            · exact Or.inr (Or.inl h2)
            · exact absurd ⟨h1, h2⟩ hcon
      refine ⟨fun a b => ?_, ?_⟩
      · rw [hdc]
        unfold setCell
        rw [ih1 a b]
        by_cases hab1 : a = j ∧ b = i
        · rw [if_pos hab1, if_pos]
          obtain ⟨rfl, rfl⟩ := hab1
          exact ⟨fun h => hfire.1 h.symm, by omega, hi, Or.inr (Or.inr (Or.inr ⟨rfl, by omega⟩))⟩
        · rw [if_neg hab1]
          by_cases hab2 : a = i ∧ b = j
          · rw [if_pos hab2, if_pos]
            obtain ⟨rfl, rfl⟩ := hab2
            exact ⟨hfire.1, hi, by omega, Or.inr (Or.inr (Or.inl ⟨rfl, by omega⟩))⟩
          · rw [if_neg hab2]
            congr 1
            apply propext
            constructor
            · rintro ⟨h1, h2, h3, h4⟩
              refine ⟨h1, h2, h3, ?_⟩
              rcases h4 with h | h | h | h
              · exact Or.inl h
              · exact Or.inr (Or.inl h)
              · exact Or.inr (Or.inr (Or.inl ⟨h.1, by omega⟩))
              · exact Or.inr (Or.inr (Or.inr ⟨h.1, by omega⟩))
            · rintro ⟨h1, h2, h3, h4⟩
              refine ⟨h1, h2, h3, ?_⟩
              rcases h4 with h | h | h | h
              · exact Or.inl h
              · exact Or.inr (Or.inl h)
              · refine Or.inr (Or.inr (Or.inl ⟨h.1, ?_⟩))
                have : b ≠ j := fun hb => hab2 ⟨h.1, hb⟩
                omega
              · refine Or.inr (Or.inr (Or.inr ⟨h.1, ?_⟩))
                have : a ≠ j := fun ha => hab1 ⟨ha, h.1⟩
                omega
      · rw [hacc, ih2]
        have hp : j ≠ i ∧ ¬ D j ∧ ¬ D i := ⟨fun h => hfire.1 h.symm, hD.2, hD.1⟩
        have hf : List.filter (fun b => decide (b ≠ i ∧ ¬ D b ∧ ¬ D i)) [j] = [j] := by
          rw [List.filter_cons, if_pos (decide_eq_true hp), List.filter_nil]
        rw [hf, List.map_cons, List.map_nil, List.foldl_cons, List.foldl_nil]
    · rw [threadBody_skip c arr i j gj hfire]
      have hcov : i = j ∨ D i ∨ D j := by
        by_contra hcon
        push_neg at hcon
        apply hfire
        refine ⟨hcon.1, ?_⟩
        rw [ih1 i j, if_neg]
        rintro ⟨_, _, _, h | h | h | h⟩
        · exact hcon.2.1 h
        · exact hcon.2.2 h
        · omega
        · exact hcon.1 h.1.symm
      refine ⟨fun a b => ?_, ?_⟩
      · rw [ih1 a b]
        congr 1
        apply propext
        constructor
        · rintro ⟨h1, h2, h3, h4⟩
          refine ⟨h1, h2, h3, ?_⟩
          rcases h4 with h | h | h | h
          · exact Or.inl h
          · exact Or.inr (Or.inl h)
          · exact Or.inr (Or.inr (Or.inl ⟨h.1, by omega⟩))
          · exact Or.inr (Or.inr (Or.inr ⟨h.1, by omega⟩))
        · rintro ⟨h1, h2, h3, h4⟩
          refine ⟨h1, h2, h3, ?_⟩
          rcases h4 with h | h | h | h
          · exact Or.inl h
          · exact Or.inr (Or.inl h)
          · by_cases hb : b = j
            · subst hb
              rcases hcov with hc | hc | hc
              · exact absurd (h.1.trans hc) h1
              · exact Or.inl (h.1 ▸ hc)
              · exact Or.inr (Or.inl hc)
            · exact Or.inr (Or.inr (Or.inl ⟨h.1, by omega⟩))
          · by_cases ha : a = j
            · subst ha
              rcases hcov with hc | hc | hc
              · exact absurd (hc.symm.trans h.1.symm) h1
              · exact Or.inr (Or.inl (h.1 ▸ hc))
              · exact Or.inl hc
            · exact Or.inr (Or.inr (Or.inr ⟨h.1, by omega⟩))
      · rw [ih2]
        have hp : ¬ (j ≠ i ∧ ¬ D j ∧ ¬ D i) := by
          rintro ⟨h1, h2, h3⟩
          rcases hcov with hc | hc | hc
          · exact h1 hc.symm
          · exact h3 hc
          · exact h2 hc
        have hf : List.filter (fun b => decide (b ≠ i ∧ ¬ D b ∧ ¬ D i)) [j] = [] := by
          rw [List.filter_cons, if_neg (by rw [decide_eq_false hp]; exact Bool.false_ne_true),
            List.filter_nil]
        rw [hf, List.map_nil, List.foldl_nil]

/-- A whole row: afterwards row `i` counts as covered. -/
theorem threadRow_closed (N : Nat) (c : DistanceFn) (arr : Nat → Star) (D : Nat → Prop)
    [DecidablePred D] (i : Nat) (hi : i < N) (g : Globals)
    (hg : ∀ a b, g.distance_calculated a b
      = if a ≠ b ∧ a < N ∧ b < N ∧ (D a ∨ D b) then 1 else 0) :
    (∀ a b, (threadRow N c arr i g).distance_calculated a b
      = if a ≠ b ∧ a < N ∧ b < N ∧ ((D a ∨ a = i) ∨ (D b ∨ b = i)) then 1 else 0)
    ∧ (threadRow N c arr i g).acc
      = (((List.range N).filter (fun b => decide (b ≠ i ∧ ¬ D b ∧ ¬ D i))).map
          (pairDistance c arr i)).foldl accumulate g.acc := by
  obtain ⟨h1, h2⟩ := threadRow_columns N c arr D i hi g hg N (le_refl N)
  refine ⟨fun a b => ?_, h2⟩
  unfold threadRow
  rw [h1 a b]
  congr 1
  apply propext
  constructor
  · rintro ⟨k1, k2, k3, k4⟩
    refine ⟨k1, k2, k3, ?_⟩
    rcases k4 with h | h | h | h
    · exact Or.inl (Or.inl h)
    · exact Or.inr (Or.inl h)
    · exact Or.inl (Or.inr h.1)
    · exact Or.inr (Or.inr h.1)
  · rintro ⟨k1, k2, k3, k4⟩
    refine ⟨k1, k2, k3, ?_⟩
    rcases k4 with (h | h) | (h | h)
    · exact Or.inl h
    · exact Or.inr (Or.inr (Or.inl ⟨h, k3⟩))
    · exact Or.inr (Or.inl h)
    · exact Or.inr (Or.inr (Or.inr ⟨h, k2⟩))

/-- Any list of rows: afterwards the rows of the list count as covered. -/
theorem threadRows_closed (N : Nat) (c : DistanceFn) (arr : Nat → Star) (rows : List Nat)
    (hrows : ∀ r ∈ rows, r < N) (D : Nat → Prop) [DecidablePred D] (g : Globals)
    (hg : ∀ a b, g.distance_calculated a b
      = if a ≠ b ∧ a < N ∧ b < N ∧ (D a ∨ D b) then 1 else 0) :
    ∀ a b, (threadRows N c arr rows g).distance_calculated a b
      = if a ≠ b ∧ a < N ∧ b < N ∧ ((D a ∨ a ∈ rows) ∨ (D b ∨ b ∈ rows)) then 1 else 0 := by
  induction rows generalizing D g with
  | nil =>
    intro a b
    simp only [threadRows, List.foldl_nil, hg a b, List.not_mem_nil, or_false]
  | cons r rows ih =>
    intro a b
    have hr : r < N := hrows r (List.mem_cons_self r rows)
    have hrest : ∀ x ∈ rows, x < N := fun x hx => hrows x (List.mem_cons_of_mem r hx)
    obtain ⟨h1, _⟩ := threadRow_closed N c arr D r hr g hg
    have h2 := ih hrest (fun a => D a ∨ a = r) (threadRow N c arr r g) h1 a b
    unfold threadRows at h2 ⊢
    rw [List.foldl_cons, h2]
    congr 1
    apply propext
    simp only [List.mem_cons]
    constructor
    · rintro ⟨k1, k2, k3, k4⟩
      refine ⟨k1, k2, k3, ?_⟩
      rcases k4 with ((h | h) | h) | ((h | h) | h)
      · exact Or.inl (Or.inl h)
      · exact Or.inl (Or.inr (Or.inl h))
      · exact Or.inl (Or.inr (Or.inr h))
      · exact Or.inr (Or.inl h)
      · exact Or.inr (Or.inr (Or.inl h))
      · exact Or.inr (Or.inr (Or.inr h))
    · rintro ⟨k1, k2, k3, k4⟩
      refine ⟨k1, k2, k3, ?_⟩
      rcases k4 with (h | h | h) | (h | h | h)
      · exact Or.inl (Or.inl (Or.inl h))
      · exact Or.inl (Or.inl (Or.inr h))
      · exact Or.inl (Or.inr h)
      · exact Or.inr (Or.inl (Or.inl h))
      · exact Or.inr (Or.inl (Or.inr h))
      · exact Or.inr (Or.inr h)

/-- The all-zero matrix is the matrix in which no row is covered. -/
theorem zero_closed (N : Nat) (g : Globals) (hz : ∀ a b, g.distance_calculated a b = 0) :
    ∀ a b, g.distance_calculated a b
      = if a ≠ b ∧ a < N ∧ b < N ∧ (False ∨ False) then 1 else 0 := by
  intro a b
  rw [hz a b, if_neg]
  rintro ⟨_, _, _, h | h⟩ <;> exact h

/-! ## The list of pairs of the sequential scan -/

theorem upperPairsBelow_self (N : Nat) : upperPairsBelow N N = upperPairs N := rfl

theorem mem_upperPairsBelow (N i a b : Nat) :
    (a, b) ∈ upperPairsBelow N i ↔ a < i ∧ a < b ∧ b < N := by
  unfold upperPairsBelow
  simp only [List.mem_flatMap, List.mem_range, List.mem_map, List.mem_filter,
    decide_eq_true_eq, Prod.mk.injEq]
  constructor
  · rintro ⟨x, hx, y, ⟨hy1, hy2⟩, rfl, rfl⟩
    exact ⟨hx, hy2, hy1⟩
  · rintro ⟨h1, h2, h3⟩
    exact ⟨a, h1, b, ⟨h3, h2⟩, rfl, rfl⟩

theorem mem_upperPairsBelow_iff (N m a b : Nat) :
    (a, b) ∈ upperPairsBelow N m ↔ a < b ∧ b < N ∧ (a < m ∨ b < m) := by
  rw [mem_upperPairsBelow]
  constructor
  · rintro ⟨h1, h2, h3⟩
    exact ⟨h2, h3, Or.inl h1⟩
  · rintro ⟨h1, h2, h3⟩
    exact ⟨by omega, h1, h2⟩

theorem mem_upperPairs (N a b : Nat) : (a, b) ∈ upperPairs N ↔ a < b ∧ b < N := by
  rw [← upperPairsBelow_self, mem_upperPairsBelow]
  constructor
  · rintro ⟨_, h2, h3⟩
    exact ⟨h2, h3⟩
  · rintro ⟨h2, h3⟩
    exact ⟨by omega, h2, h3⟩

theorem nodup_upperPairsBelow (N i : Nat) : (upperPairsBelow N i).Nodup := by
  unfold upperPairsBelow
  rw [List.nodup_flatMap]
  constructor
  · intro a _
    apply List.Nodup.map
    · intro x y hxy
      exact (Prod.mk.injEq _ _ _ _ ▸ hxy).2
    · exact List.Nodup.filter _ (List.nodup_range N)
  · apply List.Nodup.pairwise_of_forall_ne (List.nodup_range i)
    intro a _ b _ hab
    simp only [Function.onFun]
    intro p hp1 hp2
    simp only [List.mem_map, List.mem_filter] at hp1 hp2
    obtain ⟨x, _, rfl⟩ := hp1
    obtain ⟨y, _, hy⟩ := hp2
    exact hab (Prod.mk.injEq _ _ _ _ ▸ hy).1.symm

theorem nodup_upperPairs (N : Nat) : (upperPairs N).Nodup := nodup_upperPairsBelow N N

theorem length_filter_lt (a n : Nat) :
    ((List.range n).filter (fun b => decide (a < b))).length = n - 1 - a := by
  induction n with
  | zero => simp
  | succ n ih =>
    rw [List.range_succ, List.filter_append, List.length_append, ih]
    by_cases h : a < n
    · rw [List.filter_cons, if_pos (decide_eq_true h)]
      simp only [List.filter_nil, List.length_cons, List.length_nil]
      omega
    · rw [List.filter_cons, if_neg (by rw [decide_eq_false h]; exact Bool.false_ne_true)]
      simp only [List.filter_nil, List.length_nil]
      omega

theorem length_upperPairsBelow_succ (N i : Nat) :
    (upperPairsBelow N (i + 1)).length = (upperPairsBelow N i).length + (N - 1 - i) := by
  unfold upperPairsBelow
  rw [List.range_succ, List.flatMap_append, List.length_append]
  simp only [List.flatMap_cons, List.flatMap_nil, List.append_nil, List.length_map,
    length_filter_lt]

theorem length_upperPairsBelow (N i : Nat) (hi : i ≤ N) :
    2 * (upperPairsBelow N i).length + (N - i) * (N - i - 1) = N * (N - 1) := by
  induction i with
  | zero => simp [upperPairsBelow]
  | succ i ih =>
    have ih1 := ih (by omega)
    rw [length_upperPairsBelow_succ]
    obtain ⟨k, hk⟩ : ∃ k, N - i = k + 1 := ⟨N - i - 1, by omega⟩
    have e1 : N - (i + 1) = k := by omega
    have e2 : N - 1 - i = k := by omega
    rw [hk] at ih1
    rw [e1, e2]
    have e3 : k + 1 - 1 = k := by omega
    rw [e3] at ih1
    rw [← ih1]
    cases k with
    | zero => simp
    | succ m =>
      have e4 : m + 1 - 1 = m := by omega
      rw [e4]
      ring

theorem even_mul_pred (n : Nat) : 2 ∣ n * (n - 1) := by
  have h := Nat.even_mul_pred_self n
  exact even_iff_two_dvd.mp h

theorem length_upperPairs (N : Nat) : (upperPairs N).length = N * (N - 1) / 2 := by
  have h := length_upperPairsBelow N N (le_refl N)
  rw [upperPairsBelow_self] at h
  simp only [Nat.sub_self, Nat.zero_mul, Nat.add_zero] at h
  omega

/-! ## The sequential path -/

/-- The first `i` rows of a scan from the all-zero matrix: the rows below `i` are covered and
the statistics have folded in the distance of every pair `(a, b)`, `a < i`, `a < b < N`,
once, row by row. -/
theorem threadRows_range (N : Nat) (c : DistanceFn) (arr : Nat → Star) (g : Globals)
    (hz : ∀ a b, g.distance_calculated a b = 0) (i : Nat) (hi : i ≤ N) :
    (∀ a b, (threadRows N c arr (List.range i) g).distance_calculated a b
      = if a ≠ b ∧ a < N ∧ b < N ∧ (a < i ∨ b < i) then 1 else 0)
    ∧ (threadRows N c arr (List.range i) g).acc
      = ((upperPairsBelow N i).map (fun p => pairDistance c arr p.1 p.2)).foldl
          accumulate g.acc := by
  induction i with
  | zero =>
    refine ⟨fun a b => ?_, ?_⟩
    · simp [threadRows, hz a b]
    · simp [threadRows, upperPairsBelow]
  | succ i ih =>
    obtain ⟨ih1, ih2⟩ := ih (by omega)
    obtain ⟨h1, h2⟩ := threadRow_closed N c arr (fun a => a < i) i (by omega)
      (threadRows N c arr (List.range i) g) ih1
    have hstep : threadRows N c arr (List.range (i + 1)) g
        = threadRow N c arr i (threadRows N c arr (List.range i) g) := by
      unfold threadRows
      rw [List.range_succ, List.foldl_append]
      rfl
    rw [hstep]
    refine ⟨fun a b => ?_, ?_⟩
    · rw [h1 a b]
      congr 1
      apply propext
      constructor
      · rintro ⟨k1, k2, k3, k4⟩
        exact ⟨k1, k2, k3, by omega⟩
      · rintro ⟨k1, k2, k3, k4⟩
        exact ⟨k1, k2, k3, by omega⟩
    · rw [h2, ih2]
      have hfilter : (List.range N).filter (fun b => decide (b ≠ i ∧ ¬ b < i ∧ ¬ i < i))
          = (List.range N).filter (fun b => decide (i < b)) := by
        apply List.filter_congr
        intro b _
        apply decide_eq_decide.mpr
        omega
      rw [hfilter]
      unfold upperPairsBelow
      rw [List.range_succ, List.flatMap_append, List.map_append, List.foldl_append]
      simp only [List.flatMap_cons, List.flatMap_nil, List.append_nil, List.map_map]
      rfl

/-- The sequential path read through `toGlobals` is the row scan of the threaded body over
the rows `0 .. N-1`. -/
theorem sequential_toGlobals (N : Nat) (c : DistanceFn) (arr : Nat → Star) (g : Globals) :
    (seqLoops N c arr g).toGlobals
      = threadRows N c arr (List.range N)
          { distance_calculated := g.distance_calculated, min := g.min, max := g.max,
            mean_thread := 0, count := 0 } := by
  unfold seqLoops
  rw [seqRows_toGlobals]
  rfl

/-- The result of the sequential path from an all-zero matrix: every off-diagonal cell of the
`N × N` matrix is set, and the statistics are the fold of the update over the distances of
the pairs of `upperPairs N`. -/
theorem sequential_result (N : Nat) (c : DistanceFn) (arr : Nat → Star) (g : Globals)
    (hz : ∀ a b, g.distance_calculated a b = 0) :
    (∀ a b, (seqLoops N c arr g).g.distance_calculated a b
      = if a ≠ b ∧ a < N ∧ b < N then 1 else 0)
    ∧ (seqLoops N c arr g).acc
      = ((upperPairs N).map (fun p => pairDistance c arr p.1 p.2)).foldl accumulate
          { count := 0, mean := 0, min := g.min, max := g.max } := by
  have hsim := sequential_toGlobals N c arr g
  obtain ⟨h1, h2⟩ := threadRows_range N c arr
    { distance_calculated := g.distance_calculated, min := g.min, max := g.max,
      mean_thread := 0, count := 0 } hz N (le_refl N)
  rw [← hsim, upperPairsBelow_self] at h2
  rw [← hsim] at h1
  refine ⟨fun a b => ?_, h2⟩
  have h3 := h1 a b
  have h4 : (seqLoops N c arr g).toGlobals.distance_calculated a b
      = (seqLoops N c arr g).g.distance_calculated a b := rfl
  rw [← h4, h3]
  congr 1
  apply propext
  constructor
  · rintro ⟨k1, k2, k3, _⟩
    exact ⟨k1, k2, k3⟩
  · rintro ⟨k1, k2, k3⟩
    exact ⟨k1, k2, k3, Or.inl k2⟩

theorem sequential_count (N : Nat) (c : DistanceFn) (arr : Nat → Star) (g : Globals)
    (hz : ∀ a b, g.distance_calculated a b = 0) :
    (seqLoops N c arr g).count = N * (N - 1) / 2 := by
  have h := congrArg Acc.count (sequential_result N c arr g hz).2
  rw [accumulate_foldl_count, List.length_map, length_upperPairs] at h
  simpa [SeqState.acc] using h

theorem foldl_ite_eq_min (ds : List ℚ) (m : ℚ) :
    ds.foldl (fun m d => if m > d then d else m) m = ds.foldl min m := by
  induction ds generalizing m with
  | nil => rfl
  | cons d ds ih =>
    rw [List.foldl_cons, List.foldl_cons, ih]
    congr 1
    by_cases h : m > d
    · rw [if_pos h, min_eq_right (le_of_lt h)]
    · rw [if_neg h, min_eq_left (not_lt.mp h)]

theorem foldl_ite_eq_max (ds : List ℚ) (m : ℚ) :
    ds.foldl (fun m d => if m < d then d else m) m = ds.foldl max m := by
  induction ds generalizing m with
  | nil => rfl
  | cons d ds ih =>
    rw [List.foldl_cons, List.foldl_cons, ih]
    congr 1
    by_cases h : m < d
    · rw [if_pos h, max_eq_right (le_of_lt h)]
    · rw [if_neg h, max_eq_left (not_lt.mp h)]

/-- What the sequential path reports from an all-zero matrix: `min` is the least of its
initial value and the pair distances, `max` the greatest of its initial value and the pair
distances. -/
theorem sequential_min_max (N : Nat) (c : DistanceFn) (arr : Nat → Star) (g : Globals)
    (hz : ∀ a b, g.distance_calculated a b = 0) :
    (seqLoops N c arr g).g.min
        = ((upperPairs N).map (fun p => pairDistance c arr p.1 p.2)).foldl min g.min
      ∧ (seqLoops N c arr g).g.max
        = ((upperPairs N).map (fun p => pairDistance c arr p.1 p.2)).foldl max g.max := by
  have h := (sequential_result N c arr g hz).2
  have h1 := congrArg Acc.min h
  have h2 := congrArg Acc.max h
  rw [accumulate_foldl_min, foldl_ite_eq_min] at h1
  rw [accumulate_foldl_max, foldl_ite_eq_max] at h2
  exact ⟨h1, h2⟩

/-- When the distance of every pair `i < j < N` is at most `FLT_MIN`, the sequential path
leaves `max` at its initial value `FLT_MIN`. -/
theorem sequential_max_stays (N : Nat) (c : DistanceFn) (arr : Nat → Star)
    (h : ∀ i j, i < j → j < N → pairDistance c arr i j ≤ FLT_MIN) :
    (seqLoops N c arr initGlobals).g.max = FLT_MIN := by
  have h1 := congrArg Acc.max (sequential_result N c arr initGlobals (fun _ _ => rfl)).2
  rw [accumulate_foldl_max] at h1
  have h2 : (seqLoops N c arr initGlobals).acc.max
      = (seqLoops N c arr initGlobals).g.max := rfl
  rw [← h2, h1]
  apply foldl_max_stays
  intro d hd
  rw [List.mem_map] at hd
  obtain ⟨p, hp, rfl⟩ := hd
  have hp2 := (mem_upperPairs N p.1 p.2).mp hp
  exact h p.1 p.2 hp2.1 hp2.2

/-! ## The count and the set cells -/

theorem indicator_sum (N i j : Nat) (hi : i < N) (hj : j < N) :
    (∑ a in Finset.range N, ∑ b in Finset.range N, if a = i ∧ b = j then 1 else 0) = 1 := by
  simp [ite_and, Finset.sum_ite_eq', hi, hj]

theorem cellSum_mark (N i j : Nat) (m : Nat → Nat → Nat) (hi : i < N) (hj : j < N)
    (hij : i ≠ j) (h1 : m i j = 0) (h2 : m j i = 0) :
    cellSum N (setCell (setCell m i j 1) j i 1) = cellSum N m + 2 := by
  have hpt : ∀ a b, setCell (setCell m i j 1) j i 1 a b
      = m a b + (if a = i ∧ b = j then 1 else 0) + (if a = j ∧ b = i then 1 else 0) := by
    intro a b
    unfold setCell
    by_cases c1 : a = j ∧ b = i
    · obtain ⟨rfl, rfl⟩ := c1
      have : ¬ (a = b ∧ b = a) := fun h => hij h.1.symm
      simp [h2, this]
    · by_cases c2 : a = i ∧ b = j
      · obtain ⟨rfl, rfl⟩ := c2
        simp [h1, c1]
      · simp [c1, c2]
  unfold cellSum
  simp only [hpt, Finset.sum_add_distrib]
  rw [indicator_sum N i j hi hj, indicator_sum N j i hj hi]

theorem cellSum_congr (N : Nat) (m1 m2 : Nat → Nat → Nat) (h : ∀ a b, m1 a b = m2 a b) :
    cellSum N m1 = cellSum N m2 := by
  unfold cellSum
  simp only [h]

theorem symDiag_mark (m : Nat → Nat → Nat) (i j : Nat) (hij : i ≠ j) (h : SymDiag m) :
    SymDiag (setCell (setCell m i j 1) j i 1) := by
  obtain ⟨hs, hd⟩ := h
  constructor
  · intro a b
    unfold setCell
    by_cases c1 : a = j ∧ b = i
    · have c1' : b = i ∧ a = j := ⟨c1.2, c1.1⟩
      have c2 : ¬ (b = j ∧ a = i) := fun k => hij (c1.2.symm.trans k.1)
      rw [if_pos c1, if_neg c2, if_pos c1']
    · by_cases c2 : a = i ∧ b = j
      · have c2' : b = j ∧ a = i := ⟨c2.2, c2.1⟩
        rw [if_neg c1, if_pos c2, if_pos c2']
      · have c1' : ¬ (b = j ∧ a = i) := fun k => c2 ⟨k.2, k.1⟩
        have c2' : ¬ (b = i ∧ a = j) := fun k => c1 ⟨k.2, k.1⟩
        rw [if_neg c1, if_neg c2, if_neg c1', if_neg c2']
        exact hs a b
  · intro a
    unfold setCell
    have c1 : ¬ (a = j ∧ a = i) := fun k => hij (k.2.symm.trans k.1)
    have c2 : ¬ (a = i ∧ a = j) := fun k => hij (k.1.symm.trans k.2)
    rw [if_neg c1, if_neg c2]
    exact hd a

theorem threadBody_symDiag (c : DistanceFn) (arr : Nat → Star) (i j : Nat) (g : Globals)
    (h : SymDiag g.distance_calculated) :
    SymDiag (threadBody c arr i j g).distance_calculated := by
  by_cases hfire : i ≠ j ∧ g.distance_calculated i j = 0
  · rw [(threadBody_fire c arr i j g hfire).1]
    exact symDiag_mark _ i j hfire.1 h
  · rw [threadBody_skip c arr i j g hfire]
    exact h

theorem threadVisits_symDiag (c : DistanceFn) (arr : Nat → Star) (vs : List (Nat × Nat))
    (g : Globals) (h : SymDiag g.distance_calculated) :
    SymDiag (threadVisits c arr vs g).distance_calculated := by
  unfold threadVisits
  induction vs generalizing g with
  | nil => exact h
  | cons v vs ih =>
    rw [List.foldl_cons]
    exact ih _ (threadBody_symDiag c arr v.1 v.2 g h)

theorem threadBody_countInv (N : Nat) (c : DistanceFn) (arr : Nat → Star) (i j : Nat)
    (hi : i < N) (hj : j < N) (g : Globals) (h : CountInv N g) :
    CountInv N (threadBody c arr i j g) := by
  refine ⟨threadBody_symDiag c arr i j g h.1, ?_⟩
  by_cases hfire : i ≠ j ∧ g.distance_calculated i j = 0
  · obtain ⟨hdc, hacc⟩ := threadBody_fire c arr i j g hfire
    have hcount : (threadBody c arr i j g).count = g.count + 1 := congrArg Acc.count hacc
    have hji : g.distance_calculated j i = 0 := by
      rw [h.1.1 j i]
      exact hfire.2
    rw [hdc, hcount, cellSum_mark N i j _ hi hj hfire.1 hfire.2 hji, ← h.2]
    ring
  · rw [threadBody_skip c arr i j g hfire]
    exact h.2

theorem threadVisits_countInv (N : Nat) (c : DistanceFn) (arr : Nat → Star)
    (vs : List (Nat × Nat)) (hvs : ∀ v ∈ vs, v.1 < N ∧ v.2 < N) (g : Globals)
    (h : CountInv N g) : CountInv N (threadVisits c arr vs g) := by
  unfold threadVisits
  induction vs generalizing g with
  | nil => exact h
  | cons v vs ih =>
    rw [List.foldl_cons]
    have hv := hvs v (List.mem_cons_self v vs)
    exact ih (fun w hw => hvs w (List.mem_cons_of_mem v hw)) _
      (threadBody_countInv N c arr v.1 v.2 hv.1 hv.2 g h)

theorem threadRows_eq_visits (N : Nat) (c : DistanceFn) (arr : Nat → Star) (rows : List Nat)
    (g : Globals) : threadRows N c arr rows g = threadVisits c arr (rowVisits N rows) g := by
  unfold threadRows threadVisits rowVisits
  induction rows generalizing g with
  | nil => rfl
  | cons r rows ih =>
    rw [List.foldl_cons, List.flatMap_cons, List.foldl_append, ih]
    congr 1
    unfold threadRow
    rw [List.foldl_map]

theorem threadRows_countInv (N : Nat) (c : DistanceFn) (arr : Nat → Star) (rows : List Nat)
    (hrows : ∀ r ∈ rows, r < N) (g : Globals) (h : CountInv N g) :
    CountInv N (threadRows N c arr rows g) := by
  rw [threadRows_eq_visits]
  apply threadVisits_countInv N c arr _ _ g h
  intro v hv
  unfold rowVisits at hv
  simp only [List.mem_flatMap, List.mem_map, List.mem_range] at hv
  obtain ⟨r, hr, j, hj, rfl⟩ := hv
  exact ⟨hrows r hr, hj⟩

theorem countInv_zero (N : Nat) (g : Globals) (hz : ∀ a b, g.distance_calculated a b = 0)
    (hc : g.count = 0) : CountInv N g := by
  refine ⟨⟨fun a b => by rw [hz a b, hz b a], fun a => hz a a⟩, ?_⟩
  rw [hc]
  unfold cellSum
  simp [hz]

/-! ## The workers -/

theorem rowsFromTo_block (N T t : Nat) :
    rowsFromTo (threadStart N T t) (threadEnd N T t) = List.range' (N / T * t) (N / T) := by
  unfold rowsFromTo threadStart threadEnd
  have h1 : ((N / T : Nat) : Int) * (t : Int) = ((N / T * t : Nat) : Int) := by push_cast; ring
  have h2 : ((N / T : Nat) : Int) * ((t : Int) + 1) - 1 + 1 - ((N / T : Nat) : Int) * (t : Int)
      = ((N / T : Nat) : Int) := by ring
  rw [h2, h1, Int.toNat_natCast, Int.toNat_natCast]

theorem threadEnd_nonneg (N T t : Nat) (hq : 0 < N / T) : ¬ threadEnd N T t < 0 := by
  unfold threadEnd
  have h : 0 < N / T * (t + 1) := Nat.mul_pos hq (Nat.succ_pos t)
  have h2 : ((N / T : Nat) : Int) * ((t : Int) + 1) = ((N / T * (t + 1) : Nat) : Int) := by
    push_cast; ring
  rw [h2]
  omega

theorem worker_eq (N T : Nat) (c : DistanceFn) (arr : Nat → Star) (t : Nat) (g : Globals)
    (hT : 0 < T) (hq : 0 < N / T) :
    determineAverageAngularDistance_threaded N T c arr t g
      = some (threadRows N c arr (List.range' (N / T * t) (N / T)) g) := by
  unfold determineAverageAngularDistance_threaded
  rw [if_neg (by omega), if_neg (threadEnd_nonneg N T t hq), rowsFromTo_block]
  rfl

theorem threadRows_append (N : Nat) (c : DistanceFn) (arr : Nat → Star) (r1 r2 : List Nat)
    (g : Globals) :
    threadRows N c arr (r1 ++ r2) g = threadRows N c arr r2 (threadRows N c arr r1 g) := by
  unfold threadRows
  rw [List.foldl_append]

theorem runWorkers_eq (N T : Nat) (c : DistanceFn) (arr : Nat → Star) (order : List Nat)
    (g : Globals) (hT : 0 < T) (hq : 0 < N / T) :
    runWorkers N T c arr order g = some (threadRows N c arr (workerRows N T order) g) := by
  induction order generalizing g with
  | nil => rfl
  | cons t rest ih =>
    unfold runWorkers
    rw [worker_eq N T c arr t g hT hq]
    simp only
    rw [ih]
    unfold workerRows
    rw [List.flatMap_cons, threadRows_append]

theorem mem_workerRows (N T : Nat) (order : List Nat) (hq : 0 < N / T)
    (horder : ∀ t, t ∈ order ↔ t < T) (a : Nat) :
    a ∈ workerRows N T order ↔ a < T * (N / T) := by
  unfold workerRows
  simp only [List.mem_flatMap, List.mem_range'_1]
  constructor
  · rintro ⟨t, ht, _, h2⟩
    have h3 : t + 1 ≤ T := (horder t).mp ht
    have h4 : N / T * (t + 1) ≤ N / T * T := Nat.mul_le_mul_left _ h3
    have h5 : N / T * (t + 1) = N / T * t + N / T := by ring
    have h6 : N / T * T = T * (N / T) := by ring
    omega
  · intro h
    refine ⟨a / (N / T), (horder _).mpr ?_, Nat.mul_div_le a (N / T), ?_⟩
    · apply Nat.div_lt_of_lt_mul
      have h6 : N / T * T = T * (N / T) := by ring
      omega
    · have h7 := Nat.lt_mul_div_succ a hq
      have h8 : N / T * (a / (N / T) + 1) = N / T * (a / (N / T)) + N / T := by ring
      omega

/-- The state after a scan of rows whose members are the rows below `m`, from an all-zero
matrix and `count = 0`: the set cells are the off-diagonal cells with a row or a column
below `m`, and `count` is the number of pairs `(a, b)` with `a < m`, `a < b < N`. -/
theorem threadRows_below (N : Nat) (c : DistanceFn) (arr : Nat → Star) (rows : List Nat)
    (m : Nat) (hm : m ≤ N) (hrows : ∀ a, a ∈ rows ↔ a < m) (g : Globals)
    (hz : ∀ a b, g.distance_calculated a b = 0) (hc : g.count = 0) :
    (∀ a b, (threadRows N c arr rows g).distance_calculated a b
      = if a ≠ b ∧ a < N ∧ b < N ∧ (a < m ∨ b < m) then 1 else 0)
    ∧ (threadRows N c arr rows g).count = (upperPairsBelow N m).length := by
  have hlt : ∀ r ∈ rows, r < N := fun r hr => lt_of_lt_of_le ((hrows r).mp hr) hm
  have hdc : ∀ a b, (threadRows N c arr rows g).distance_calculated a b
      = if a ≠ b ∧ a < N ∧ b < N ∧ (a < m ∨ b < m) then 1 else 0 := by
    intro a b
    rw [threadRows_closed N c arr rows hlt (fun _ => False) g (zero_closed N g hz) a b]
    congr 1
    apply propext
    rw [hrows a, hrows b]
    constructor
    · rintro ⟨k1, k2, k3, (h | h) | (h | h)⟩
      · exact absurd h id
      · exact ⟨k1, k2, k3, Or.inl h⟩
      · exact absurd h id
      · exact ⟨k1, k2, k3, Or.inr h⟩
    · rintro ⟨k1, k2, k3, h | h⟩
      · exact ⟨k1, k2, k3, Or.inl (Or.inr h)⟩
      · exact ⟨k1, k2, k3, Or.inr (Or.inr h)⟩
  refine ⟨hdc, ?_⟩
  have hinv1 := (threadRows_countInv N c arr rows hlt g (countInv_zero N g hz hc)).2
  have hlt2 : ∀ r ∈ List.range m, r < N := fun r hr =>
    lt_of_lt_of_le (List.mem_range.mp hr) hm
  have hinv2 := (threadRows_countInv N c arr (List.range m) hlt2 g (countInv_zero N g hz hc)).2
  obtain ⟨hdc2, hacc2⟩ := threadRows_range N c arr g hz m hm
  have hcount2 : (threadRows N c arr (List.range m) g).count = (upperPairsBelow N m).length := by
    have h := congrArg Acc.count hacc2
    rw [accumulate_foldl_count, List.length_map] at h
    have h0 : g.acc.count = 0 := hc
    rw [h0, Nat.zero_add] at h
    exact h
  have hsum : cellSum N (threadRows N c arr rows g).distance_calculated
      = cellSum N (threadRows N c arr (List.range m) g).distance_calculated :=
    cellSum_congr N _ _ (fun a b => by rw [hdc a b, hdc2 a b])
  rw [hsum, ← hinv2, hcount2] at hinv1
  omega

/-- The workers of `order` (a list with the members `0 .. T-1`) run one after another from
the initial globals, for `1 ≤ T ≤ N`. -/
theorem workers_result (N T : Nat) (c : DistanceFn) (arr : Nat → Star) (order : List Nat)
    (hT : 1 ≤ T) (hN : T ≤ N) (horder : ∀ t, t ∈ order ↔ t < T) :
    ∃ g, runWorkers N T c arr order initGlobals = some g
      ∧ (∀ a b, g.distance_calculated a b
          = if a ≠ b ∧ a < N ∧ b < N ∧ (a < T * (N / T) ∨ b < T * (N / T)) then 1 else 0)
      ∧ g.count = (upperPairsBelow N (T * (N / T))).length
      ∧ g.count = N * (N - 1) / 2 - N % T * (N % T - 1) / 2 := by
  have hq : 0 < N / T := Nat.div_pos hN hT
  have hm : T * (N / T) ≤ N := Nat.mul_div_le N T
  obtain ⟨h1, h2⟩ := threadRows_below N c arr (workerRows N T order) (T * (N / T)) hm
    (mem_workerRows N T order hq horder) initGlobals (fun _ _ => rfl) rfl
  refine ⟨_, runWorkers_eq N T c arr order initGlobals hT hq, h1, h2, ?_⟩
  rw [h2]
  have h3 := length_upperPairsBelow N (T * (N / T)) hm
  have h4 : N - T * (N / T) = N % T := by
    have := Nat.div_add_mod N T
    omega
  rw [h4] at h3
  obtain ⟨A, hA⟩ := even_mul_pred N
  obtain ⟨B, hB⟩ := even_mul_pred (N % T)
  rw [hA] at h3 ⊢
  rw [hB] at h3 ⊢
  omega

/-- The rows that lie in the range of some worker are the rows below `T * (N / T)`. -/
theorem row_ranges_cover (N T i : Nat) :
    (∃ t, t < T ∧ inRowRange N T t i) ↔ i < T * (N / T) := by
  unfold inRowRange threadStart threadEnd
  constructor
  · rintro ⟨t, ht, h1, h2⟩
    have h3 : ((N / T : Nat) : Int) * ((t : Int) + 1) = ((N / T * (t + 1) : Nat) : Int) := by
      push_cast; ring
    rw [h3] at h2
    have h4 : N / T * (t + 1) ≤ N / T * T := Nat.mul_le_mul_left _ ht
    have h5 : N / T * T = T * (N / T) := by ring
    omega
  · intro h
    have hq : 0 < N / T := by
      rcases Nat.eq_zero_or_pos (N / T) with h0 | h0
      · rw [h0] at h
        omega
      · exact h0
    refine ⟨i / (N / T), ?_, ?_, ?_⟩
    · apply Nat.div_lt_of_lt_mul
      have h5 : N / T * T = T * (N / T) := by ring
      omega
    · have h6 := Nat.mul_div_le i (N / T)
      have h7 : ((N / T : Nat) : Int) * ((i / (N / T) : Nat) : Int)
          = ((N / T * (i / (N / T)) : Nat) : Int) := by push_cast; ring
      rw [h7]
      omega
    · have h6 := Nat.lt_mul_div_succ i hq
      have h7 : ((N / T : Nat) : Int) * (((i / (N / T) : Nat) : Int) + 1)
          = ((N / T * (i / (N / T) + 1) : Nat) : Int) := by push_cast; ring
      rw [h7]
      omega

/-- The ranges of two different workers share no row. -/
theorem row_ranges_disjoint (N T t1 t2 i : Nat) (h1 : inRowRange N T t1 i)
    (h2 : inRowRange N T t2 i) : t1 = t2 := by
  unfold inRowRange threadStart threadEnd at h1 h2
  generalize N / T = q at h1 h2
  by_contra hne
  rcases Nat.lt_or_gt_of_ne hne with h | h
  · have h3 : (q : Int) * ((t1 : Int) + 1) ≤ (q : Int) * (t2 : Int) :=
      mul_le_mul_of_nonneg_left (by omega) (by omega)
    omega
  · have h3 : (q : Int) * ((t2 : Int) + 1) ≤ (q : Int) * (t1 : Int) :=
      mul_le_mul_of_nonneg_left (by omega) (by omega)
    omega

/-! ## The mutex -/

theorem next_not_locked (N : Nat) (w : Worker) : (w.next N).pc.locked = false := by
  unfold Worker.next
  split
  · rfl
  · split <;> rfl

theorem set_workers_self (c : Config) (t : Nat) (w : Worker) : (c.set t w).workers t = w := by
  simp [Config.set]

theorem set_workers_other (c : Config) (t u : Nat) (w : Worker) (h : u ≠ t) :
    (c.set t w).workers u = c.workers u := by
  simp [Config.set, h]

theorem mutexInv_local (c c1 : Config) (t : Nat) (h : MutexInv c)
    (hm : c1.mutex = c.mutex) (hw : ∀ u, u ≠ t → c1.workers u = c.workers u)
    (hl : (c1.workers t).pc.locked = (c.workers t).pc.locked) : MutexInv c1 := by
  intro u
  rw [hm]
  by_cases hu : u = t
  · subst hu
    rw [hl]
    exact h u
  · rw [hw u hu]
    exact h u

theorem step_mutexInv (N : Nat) (c0 : DistanceFn) (arr : Nat → Star) (t : Nat)
    (c c1 : Config) (h : MutexInv c) (hs : step N c0 arr t c = some c1) : MutexInv c1 := by
  unfold step at hs
  split at hs
  · rename_i hpc
    split at hs
    · cases hs
      exact mutexInv_local c _ t h rfl (fun u hu => set_workers_other _ _ _ _ hu)
        (by rw [set_workers_self, hpc]; rfl)
    · cases hs
      exact mutexInv_local c _ t h rfl (fun u hu => set_workers_other _ _ _ _ hu)
        (by rw [set_workers_self, hpc, next_not_locked]; rfl)
  · rename_i hpc
    cases hs
    exact mutexInv_local c _ t h rfl (fun u hu => set_workers_other _ _ _ _ hu)
      (by rw [set_workers_self, hpc]; rfl)
  · rename_i hpc
    cases hs
    exact mutexInv_local c _ t h rfl (fun u hu => set_workers_other _ _ _ _ hu)
      (by rw [set_workers_self, hpc]; rfl)
  · rename_i hpc
    cases hs
    exact mutexInv_local c _ t h rfl (fun u hu => set_workers_other _ _ _ _ hu)
      (by rw [set_workers_self, hpc]; rfl)
  · split at hs
    · rename_i hm
      cases hs
      intro u
      by_cases hu : u = t
      · subst hu
        rw [set_workers_self]
        exact ⟨fun _ => rfl, fun _ => rfl⟩
      · rw [set_workers_other _ _ _ _ hu]
        have h1 := h u
        rw [hm] at h1
        constructor
        · intro h2
          exact absurd (h1.mp h2) (by simp)
        · intro h2
          exact absurd (Option.some.inj h2) (fun k => hu k.symm)
    · cases hs
  · rename_i hpc
    cases hs
    exact mutexInv_local c _ t h rfl (fun u hu => set_workers_other _ _ _ _ hu)
      (by rw [set_workers_self, hpc]; rfl)
  · rename_i hpc
    cases hs
    exact mutexInv_local c _ t h rfl (fun u hu => set_workers_other _ _ _ _ hu)
      (by rw [set_workers_self, hpc]; rfl)
  · rename_i hpc
    cases hs
    exact mutexInv_local c _ t h rfl (fun u hu => set_workers_other _ _ _ _ hu)
      (by rw [set_workers_self, hpc]; rfl)
  · rename_i hpc
    cases hs
    exact mutexInv_local c _ t h rfl (fun u hu => set_workers_other _ _ _ _ hu)
      (by rw [set_workers_self, hpc]; rfl)
  · rename_i hpc
    have hl : (c.workers t).pc.locked = true := by rw [hpc]; rfl
    have hm : c.mutex = some t := (h t).mp hl
    cases hs
    intro u
    by_cases hu : u = t
    · subst hu
      rw [set_workers_self, next_not_locked]
      simp [Config.set]
    · rw [set_workers_other _ _ _ _ hu]
      constructor
      · intro h2
        have h3 := (h u).mp h2
        rw [hm] at h3
        exact absurd (Option.some.inj h3).symm hu
      · intro h2
        exact absurd h2 (by simp [Config.set])
  · cases hs

theorem runSchedule_mutexInv (N : Nat) (c0 : DistanceFn) (arr : Nat → Star)
    (schedule : List Nat) (c : Config) (h : MutexInv c) :
    MutexInv (runSchedule N c0 arr schedule c) := by
  unfold runSchedule
  induction schedule generalizing c with
  | nil => exact h
  | cons t rest ih =>
    rw [List.foldl_cons]
    apply ih
    cases hs : step N c0 arr t c with
    | none => exact h
    | some c1 => exact step_mutexInv N c0 arr t c c1 h hs

theorem initConfig_mutexInv (N T : Nat) : MutexInv (initConfig N T) := by
  intro t
  unfold initConfig
  simp only
  split <;> simp [Pc.locked]

/-- Under every schedule from the initial configuration, a worker is between lock and unlock
exactly when it holds the mutex. -/
theorem reachable_mutexInv (N T : Nat) (c0 : DistanceFn) (arr : Nat → Star)
    (schedule : List Nat) : MutexInv (runSchedule N c0 arr schedule (initConfig N T)) :=
  runSchedule_mutexInv N c0 arr schedule (initConfig N T) (initConfig_mutexInv N T)

theorem iteration_uninterrupted (N : Nat) (c0 : DistanceFn) (arr : Nat → Star) (t : Nat)
    (c : Config) (hpc : (c.workers t).pc = Pc.test) (hm : c.mutex = none) :
    ∃ k, k ≤ 10
      ∧ (runSchedule N c0 arr (List.replicate k t) c).g
          = threadBody c0 arr (c.workers t).i (c.workers t).j c.g
      ∧ (runSchedule N c0 arr (List.replicate k t) c).mutex = none
      ∧ ((runSchedule N c0 arr (List.replicate k t) c).workers t).pc
          = ((c.workers t).next N).pc := by
  by_cases hfire : (c.workers t).i ≠ (c.workers t).j
      ∧ c.g.distance_calculated (c.workers t).i (c.workers t).j = 0
  · refine ⟨10, le_refl 10, ?_, ?_, ?_⟩
    · simp [runSchedule, List.replicate, step, hpc, hfire, hm, Config.set, threadBody]
    · simp [runSchedule, List.replicate, step, hpc, hfire, hm, Config.set]
    · simp only [runSchedule, List.replicate, step, hpc, hfire, hm, Config.set, Worker.next,
        List.foldl, and_self, if_true, ite_true, not_false_eq_true, ne_eq]
      split_ifs <;> rfl
  · refine ⟨1, by decide, ?_, ?_, ?_⟩
    · simp [runSchedule, List.replicate, step, hpc, hfire, hm, Config.set, threadBody]
    · simp [runSchedule, List.replicate, step, hpc, hfire, hm, Config.set]
    · simp [runSchedule, List.replicate, step, hpc, hfire, hm, Config.set, Worker.next]

/-! ## The value returned by the sequential path -/

theorem determineAverageAngularDistance_state (N : Nat) (c : DistanceFn) (arr : Nat → Star)
    (g : Globals) : (determineAverageAngularDistance N c arr g).toSeqState
      = seqLoops N c arr g := rfl

theorem toGlobals_fields (s : SeqState) :
    s.toGlobals.count = s.count ∧ s.toGlobals.mean_thread = s.mean
      ∧ s.toGlobals.min = s.g.min ∧ s.toGlobals.max = s.g.max
      ∧ s.toGlobals.distance_calculated = s.g.distance_calculated :=
  ⟨rfl, rfl, rfl, rfl, rfl⟩

theorem determineAverageAngularDistance_result (N : Nat) (c : DistanceFn) (arr : Nat → Star)
    (g : Globals) : (determineAverageAngularDistance N c arr g).result
      = narrowToFloat (seqLoops N c arr g).mean := rfl

/-- With a distance function that returns `d` for every pair, the mean is `d` as soon as
there is a pair. -/
theorem sequential_mean_const (N : Nat) (c : DistanceFn) (arr : Nat → Star) (g : Globals)
    (d : ℚ) (hz : ∀ a b, g.distance_calculated a b = 0) (hN : 2 ≤ N)
    (hd : ∀ i j, pairDistance c arr i j = d) : (seqLoops N c arr g).mean = d := by
  have h := congrArg Acc.mean (sequential_result N c arr g hz).2
  have hmap : (upperPairs N).map (fun p => pairDistance c arr p.1 p.2)
      = List.replicate (upperPairs N).length d := by
    rw [List.eq_replicate_iff]
    refine ⟨List.length_map _ _, ?_⟩
    intro x hx
    rw [List.mem_map] at hx
    obtain ⟨p, _, rfl⟩ := hx
    exact hd p.1 p.2
  have hmem : (0, 1) ∈ upperPairs N := (mem_upperPairs N 0 1).mpr ⟨by omega, by omega⟩
  have hlen : (upperPairs N).length ≠ 0 := by
    intro h0
    rw [List.length_eq_zero.mp h0] at hmem
    exact List.not_mem_nil _ hmem
  have hne : List.replicate (upperPairs N).length d ≠ [] := by
    intro h0
    have h1 := congrArg List.length h0
    rw [List.length_replicate] at h1
    exact hlen h1
  rw [hmap, accumulate_foldl_mean_eq _ _ _ hne, List.sum_replicate, List.length_replicate,
    nsmul_eq_mul] at h
  have hq : ((upperPairs N).length : ℚ) ≠ 0 := by exact_mod_cast hlen
  have hcancel : ((upperPairs N).length : ℚ) * d / ((upperPairs N).length : ℚ) = d := by
    field_simp
  rw [hcancel] at h
  exact h

theorem log_fine : Int.log 2 (|(94371841 / 1048576 : ℚ)|) = 6 := by
  have h1 : |(94371841 / 1048576 : ℚ)| = 94371841 / 1048576 := abs_of_pos (by norm_num)
  rw [h1, Int.log_of_one_le_right 2 (by norm_num)]
  have h2 : ⌊(94371841 / 1048576 : ℚ)⌋₊ = 90 := by
    rw [Nat.floor_eq_iff (by norm_num)]
    constructor <;> norm_num
  rw [h2]
  have h3 : Nat.log 2 90 = 6 := by
    rw [Nat.log_eq_iff (by norm_num)]
    norm_num
  rw [h3]
  rfl

/-- The `double` `90 + 2^-20` converts to the `float` `90`: near 90 the floats are `2^-17`
apart. -/
theorem narrowToFloat_fine : narrowToFloat (94371841 / 1048576) = some 90 := by
  unfold narrowToFloat
  rw [log_fine]
  have habs : |(94371841 / 1048576 : ℚ)| = 94371841 / 1048576 := abs_of_pos (by norm_num)
  have he : max (6 : Int) (-126) - 23 = -17 := by decide
  have hq : (94371841 / 1048576 : ℚ) / 2 ^ (max (6 : Int) (-126) - 23) = 94371841 / 8 := by
    rw [he]
    norm_num [zpow_neg]
  have hfloor : ⌊(94371841 / 8 : ℚ)⌋ = 11796480 := by
    rw [Int.floor_eq_iff]
    constructor <;> norm_num
  have hr : roundHalfEven (94371841 / 8) = 11796480 := by
    unfold roundHalfEven
    rw [hfloor]
    norm_num
  rw [habs, hq, hr, he]
  norm_num [zpow_neg, FLT_MAX]

/-- For `N ≥ 1` the single worker of `T = 1`, run from the initial globals, ends in the state
in which the sequential path leaves its loops: same `count`, same matrix, `min`, `max`, and
`mean_thread` equal to the local `mean` before it is returned. -/
theorem single_worker_state (N : Nat) (c : DistanceFn) (arr : Nat → Star) (hN : 0 < N) :
    determineAverageAngularDistance_threaded N 1 c arr 0 initGlobals
        = some (seqLoops N c arr initGlobals).toGlobals
      ∧ runWorkers N 1 c arr [0] initGlobals
        = some (seqLoops N c arr initGlobals).toGlobals := by
  have hq : 0 < N / 1 := by rw [Nat.div_one]; exact hN
  have h1 := worker_eq N 1 c arr 0 initGlobals Nat.one_pos hq
  have h2 : List.range' (N / 1 * 0) (N / 1) = List.range N := by
    rw [Nat.div_one, Nat.mul_zero, List.range_eq_range']
  rw [h2] at h1
  have h3 : threadRows N c arr (List.range N) initGlobals
      = (seqLoops N c arr initGlobals).toGlobals :=
    (sequential_toGlobals N c arr initGlobals).symm
  rw [h3] at h1
  refine ⟨h1, ?_⟩
  unfold runWorkers
  rw [h1]
  rfl

/-! ## The dispatch in `main` -/

/-- When the array `tid` fits on the stack: `num_threads == 0` runs the sequential path,
`1 ≤ num_threads ≤ MAX_THREADS` the threaded path, a larger `num_threads` ends the program
with exit status 1, no computation and no report. -/
theorem main_dispatch_when_tid_fits (stackBytes : Nat) (n : Int) (h0 : 0 ≤ n)
    (hfit : (sizeof_pthread_t : Int) * n ≤ (stackBytes : Int)) :
    (n = 0 → mainDispatch stackBytes n
        = some { path := some Path.sequential, report := true, ending := Ending.exit 0 })
      ∧ (1 ≤ n ∧ n ≤ (MAX_THREADS : Int) → mainDispatch stackBytes n
        = some { path := some Path.threaded, report := true, ending := Ending.exit 0 })
      ∧ ((MAX_THREADS : Int) < n → mainDispatch stackBytes n
        = some { path := none, report := false, ending := Ending.exit 1 }) := by
  unfold mainDispatch
  rw [if_neg (by omega), if_neg (by omega)]
  unfold MAX_THREADS
  refine ⟨?_, ?_, ?_⟩
  · intro h
    rw [if_neg (by omega), if_pos h]
  · intro h
    rw [if_pos (by omega)]
  · intro h
    rw [if_neg (by omega), if_neg (by omega)]

/-- The report is printed only for `0 ≤ num_threads ≤ MAX_THREADS`. -/
theorem main_report_only_in_range (stackBytes : Nat) (n : Int) (o : MainOutcome)
    (h : mainDispatch stackBytes n = some o) (hr : o.report = true) :
    0 ≤ n ∧ n ≤ (MAX_THREADS : Int) := by
  unfold mainDispatch at h
  split at h
  · cases h
  · split at h
    · cases h
      cases hr
    · split at h
      · omega
      · split at h
        · unfold MAX_THREADS
          omega
        · cases h
          cases hr


/-! ## The claims -/

/-- C1: from an all-zero matrix the sequential path folds into the statistics the distance of
each pair `(i, j)`, `i < j < N`, once (the list `upperPairs N` has no duplicates and holds
exactly those pairs), and the final `count` is `N * (N - 1) / 2`. -/
theorem sequential_each_pair_once (N : Nat) (c : DistanceFn) (arr : Nat → Star) (g : Globals)
    (hz : ∀ a b, g.distance_calculated a b = 0) :
    (determineAverageAngularDistance N c arr g).acc
        = ((upperPairs N).map (fun p => pairDistance c arr p.1 p.2)).foldl accumulate
            { count := 0, mean := 0, min := g.min, max := g.max }
      ∧ (upperPairs N).Nodup
      ∧ (∀ i j, (i, j) ∈ upperPairs N ↔ i < j ∧ j < N)
      ∧ (determineAverageAngularDistance N c arr g).count = N * (N - 1) / 2 :=
  ⟨(sequential_result N c arr g hz).2, nodup_upperPairs N, mem_upperPairs N,
    sequential_count N c arr g hz⟩

theorem sequential_each_pair_once_witness :
    (∀ a b, initGlobals.distance_calculated a b = 0)
      ∧ (determineAverageAngularDistance 3 blackBox90 (loadCatalog catalog3) initGlobals).count
          = 3 * (3 - 1) / 2 :=
  ⟨fun _ _ => rfl,
    (sequential_each_pair_once 3 blackBox90 (loadCatalog catalog3) initGlobals
      (fun _ _ => rfl)).2.2.2⟩

/-- C2 (the code at the failing input): with a catalog of `NUM_STARS` records that all have
the same coordinates, every pair distance is `0`, so the true maximum is `0`; yet the
sequential path leaves `max` at its initial value `FLT_MIN`, which is positive. -/
theorem sequential_max_coinciding_stars :
    coincidingCatalog.length = NUM_STARS
      ∧ (∀ i j, i < NUM_STARS → j < NUM_STARS →
          pairDistance blackBoxEq (loadCatalog coincidingCatalog) i j = 0)
      ∧ (determineAverageAngularDistance NUM_STARS blackBoxEq (loadCatalog coincidingCatalog)
          initGlobals).g.max = FLT_MIN
      ∧ 0 < FLT_MIN := by
  have hload : ∀ i, i < NUM_STARS → loadCatalog coincidingCatalog i
      = { ID := 1, RightAscension := 10, Declination := 20 } := by
    intro i hi
    unfold loadCatalog coincidingCatalog
    rw [List.getD_eq_getElem?_getD, List.getElem?_replicate, if_pos hi]
    rfl
  have h0 : ∀ i j, i < NUM_STARS → j < NUM_STARS →
      pairDistance blackBoxEq (loadCatalog coincidingCatalog) i j = 0 := by
    intro i j hi hj
    unfold pairDistance blackBoxEq
    rw [hload i hi, hload j hj]
    simp
  have hpos : (0 : ℚ) < FLT_MIN := by
    unfold FLT_MIN
    positivity
  refine ⟨List.length_replicate _ _, h0, ?_, hpos⟩
  apply sequential_max_stays
  intro i j hij hj
  rw [h0 i j (by omega) hj]
  exact le_of_lt hpos

/-- C3: in exact arithmetic the update folded over a non-empty list of distances from
`count = 0`, `mean = 0` ends with `count` the length of the list and `mean` its arithmetic
mean; so the final mean is the same for every permutation of the list. -/
theorem running_mean_is_arithmetic_mean (ds : List ℚ) (mn mx : ℚ) (h : ds ≠ []) :
    (ds.foldl accumulate { count := 0, mean := 0, min := mn, max := mx }).count = ds.length
      ∧ (ds.foldl accumulate { count := 0, mean := 0, min := mn, max := mx }).mean
          = ds.sum / (ds.length : ℚ)
      ∧ ∀ ds2 : List ℚ, ds2.Perm ds →
          (ds2.foldl accumulate { count := 0, mean := 0, min := mn, max := mx }).mean
            = (ds.foldl accumulate { count := 0, mean := 0, min := mn, max := mx }).mean := by
  refine ⟨?_, accumulate_foldl_mean_eq ds mn mx h, ?_⟩
  · rw [accumulate_foldl_count]
    simp
  · intro ds2 hp
    have h2 : ds2 ≠ [] := by
      intro h0
      rw [h0] at hp
      exact h (List.Perm.eq_nil (List.Perm.symm hp))
    rw [accumulate_foldl_mean_eq ds mn mx h, accumulate_foldl_mean_eq ds2 mn mx h2,
      hp.sum_eq, hp.length_eq]

theorem running_mean_is_arithmetic_mean_witness :
    ([10, 20, 60] : List ℚ) ≠ []
      ∧ (([10, 20, 60] : List ℚ).foldl accumulate
          { count := 0, mean := 0, min := FLT_MAX, max := FLT_MIN }).mean
          = ([10, 20, 60] : List ℚ).sum / (([10, 20, 60] : List ℚ).length : ℚ) :=
  ⟨by simp, (running_mean_is_arithmetic_mean [10, 20, 60] FLT_MAX FLT_MIN (by simp)).2.1⟩

/-- C4 (the code at the failing input): with `NUM_STARS = 30000` rows and `T = 7` workers,
a count within `1 .. MAX_THREADS`, the last row `29999` lies in the range of no worker. -/
theorem row_ranges_gap_seven_workers :
    1 ≤ 7 ∧ 7 ≤ MAX_THREADS ∧ 29999 < NUM_STARS
      ∧ ∀ t : Nat, t < 7 → ¬ inRowRange NUM_STARS 7 t 29999 := by
  decide

/-- C5 (counterexample): with the three records of the scenario loaded and the black box
returning 90, the sequential path of the program (`NUM_STARS` slots) ends with
`count = 449985000`, not with the 3 pairs of the loaded records. -/
theorem sequential_count_three_records :
    (determineAverageAngularDistance NUM_STARS blackBox90 (loadCatalog catalog3)
        initGlobals).count = 449985000
      ∧ ¬ ((determineAverageAngularDistance NUM_STARS blackBox90 (loadCatalog catalog3)
        initGlobals).count = catalog3.length * (catalog3.length - 1) / 2) := by
  have h := sequential_count NUM_STARS blackBox90 (loadCatalog catalog3) initGlobals
    (fun _ _ => rfl)
  have h2 : NUM_STARS * (NUM_STARS - 1) / 2 = 449985000 := by decide
  rw [h2] at h
  rw [determineAverageAngularDistance_state]
  refine ⟨h, ?_⟩
  rw [h]
  decide

/-- C5 (amended): whatever records are loaded (at most `NUM_STARS`, the capacity of
`star_array`), the sequential path scans all `NUM_STARS` slots of the array: `count` ends at
`NUM_STARS * (NUM_STARS - 1) / 2 = 449985000` and the statistics are the fold over the pairs
of all slots. In an array of exactly 3 slots the scenario gives `count = 3` and
`mean = min = max = 90`. -/
theorem sequential_scans_all_slots (records : List Star) (c : DistanceFn)
    (_hcap : records.length ≤ NUM_STARS) :
    (determineAverageAngularDistance NUM_STARS c (loadCatalog records) initGlobals).count
        = 449985000
      ∧ (determineAverageAngularDistance NUM_STARS c (loadCatalog records) initGlobals).acc
        = ((upperPairs NUM_STARS).map
            (fun p => pairDistance c (loadCatalog records) p.1 p.2)).foldl accumulate initAcc
      ∧ (determineAverageAngularDistance 3 blackBox90 (loadCatalog catalog3) initGlobals).acc
        = { count := 3, mean := 90, min := 90, max := 90 } := by
  have h := sequential_count NUM_STARS c (loadCatalog records) initGlobals (fun _ _ => rfl)
  have h2 : NUM_STARS * (NUM_STARS - 1) / 2 = 449985000 := by decide
  rw [h2] at h
  rw [determineAverageAngularDistance_state, determineAverageAngularDistance_state]
  refine ⟨h, (sequential_result NUM_STARS c (loadCatalog records) initGlobals
    (fun _ _ => rfl)).2, ?_⟩
  rw [(sequential_result 3 blackBox90 (loadCatalog catalog3) initGlobals (fun _ _ => rfl)).2]
  simp only [upperPairs, List.range, List.range.loop, List.flatMap, List.map, List.filter,
    List.flatten, List.foldl, List.append, accumulate, pairDistance, blackBox90, initGlobals,
    FLT_MAX, FLT_MIN]
  norm_num

theorem sequential_scans_all_slots_witness :
    catalog3.length ≤ NUM_STARS
      ∧ (determineAverageAngularDistance NUM_STARS blackBox90 (loadCatalog catalog3)
          initGlobals).count = 449985000 :=
  ⟨by decide, (sequential_scans_all_slots catalog3 blackBox90 (by decide)).1⟩

/-- C6 (the code at the failing input): `NUM_STARS` stars, every pair at distance
`90 + 2^-20`. The single worker of `T = 1` ends with `mean_thread = 90 + 2^-20`, and the
sequential path leaves its loops in the same state (same `count`, `min`, `max`, matrix, and
local `mean = 90 + 2^-20`), but the function returns the `float` `90`: the mean that `main`
reports is not the same in the two paths. -/
theorem sequential_returns_narrowed_mean :
    ∃ g, determineAverageAngularDistance_threaded NUM_STARS 1 blackBoxFine
          (loadCatalog catalog3) 0 initGlobals = some g
      ∧ g.mean_thread = 94371841 / 1048576
      ∧ (determineAverageAngularDistance NUM_STARS blackBoxFine (loadCatalog catalog3)
          initGlobals).result = some 90
      ∧ (determineAverageAngularDistance NUM_STARS blackBoxFine (loadCatalog catalog3)
          initGlobals).mean = 94371841 / 1048576
      ∧ g.count = (determineAverageAngularDistance NUM_STARS blackBoxFine
          (loadCatalog catalog3) initGlobals).count
      ∧ g.min = (determineAverageAngularDistance NUM_STARS blackBoxFine
          (loadCatalog catalog3) initGlobals).g.min
      ∧ g.max = (determineAverageAngularDistance NUM_STARS blackBoxFine
          (loadCatalog catalog3) initGlobals).g.max
      ∧ g.distance_calculated = (determineAverageAngularDistance NUM_STARS blackBoxFine
          (loadCatalog catalog3) initGlobals).g.distance_calculated := by
  have hmean : (seqLoops NUM_STARS blackBoxFine (loadCatalog catalog3) initGlobals).mean
      = 94371841 / 1048576 :=
    sequential_mean_const NUM_STARS blackBoxFine (loadCatalog catalog3) initGlobals _
      (fun _ _ => rfl) (by decide) (fun _ _ => rfl)
  have hf := toGlobals_fields (seqLoops NUM_STARS blackBoxFine (loadCatalog catalog3)
    initGlobals)
  rw [determineAverageAngularDistance_result, determineAverageAngularDistance_state, hmean]
  refine ⟨_, (single_worker_state NUM_STARS blackBoxFine (loadCatalog catalog3)
    (by decide)).1, ?_, narrowToFloat_fine, rfl, hf.1, hf.2.2.1, hf.2.2.2.1, hf.2.2.2.2⟩
  rw [hf.2.1, hmean]

/-- C7 (the code at the failing input): `num_threads = 2000000000`, above `MAX_THREADS`,
with the usual 8 MiB of stack. The array `tid` of line 237 takes 16000000000 bytes, so the
program is killed by `SIGSEGV` before it reaches the test of line 245: it does not end with
exit status 1. With a negative `num_threads` the size of the array is negative and the
behaviour is not defined. -/
theorem main_killed_for_large_thread_count :
    (MAX_THREADS : Int) < 2000000000
      ∧ mainDispatch 8388608 2000000000
        = some { path := none, report := false, ending := Ending.sigsegv }
      ∧ mainDispatch 8388608 2000000000
        ≠ some { path := none, report := false, ending := Ending.exit 1 }
      ∧ mainDispatch 8388608 (-1) = none := by
  refine ⟨by decide, by decide, by decide, by decide⟩

/-- C8 (counterexample): `N = 4` rows, `T = 2` workers. Worker 0 sets the cell `(0, 1)` with
its fourth statement while nobody holds the mutex, so not every statement of the update is
run by the holder of the mutex. When worker 0 has set both its cells and worker 1 has set its
cells and taken the mutex, both workers are in the middle of their four-step update, so the
updates do interleave: worker 1 then completes its update, and `count = 1` while the pairs
`(0, 1)` and `(2, 0)` are both marked and worker 0 still waits before its `count++`. -/
theorem marks_outside_mutex :
    ¬ (∀ (schedule : List Nat) (t : Nat),
        ((runSchedule 4 blackBox90 (loadCatalog catalog3) schedule
          (initConfig 4 2)).workers t).pc.updateStatement = true →
        (runSchedule 4 blackBox90 (loadCatalog catalog3) schedule (initConfig 4 2)).mutex
          = some t)
      ∧ ¬ (∀ (schedule : List Nat) (t u : Nat),
        ((runSchedule 4 blackBox90 (loadCatalog catalog3) schedule
          (initConfig 4 2)).workers t).pc.midUpdate = true →
        ((runSchedule 4 blackBox90 (loadCatalog catalog3) schedule
          (initConfig 4 2)).workers u).pc.midUpdate = true → t = u)
      ∧ ((runSchedule 4 blackBox90 (loadCatalog catalog3) [0, 0, 0]
          (initConfig 4 2)).workers 0).pc = Pc.mark1
      ∧ (runSchedule 4 blackBox90 (loadCatalog catalog3) [0, 0, 0] (initConfig 4 2)).mutex = none
      ∧ (runSchedule 4 blackBox90 (loadCatalog catalog3) [0, 0, 0, 0]
          (initConfig 4 2)).g.distance_calculated 0 1 = 1
      ∧ (runSchedule 4 blackBox90 (loadCatalog catalog3) [0, 0, 0, 0]
          (initConfig 4 2)).mutex = none
      ∧ ((runSchedule 4 blackBox90 (loadCatalog catalog3) [0, 0, 0, 0, 0, 1, 1, 1, 1, 1]
          (initConfig 4 2)).workers 0).pc = Pc.lock
      ∧ ((runSchedule 4 blackBox90 (loadCatalog catalog3) [0, 0, 0, 0, 0, 1, 1, 1, 1, 1]
          (initConfig 4 2)).workers 1).pc = Pc.incr
      ∧ (runSchedule 4 blackBox90 (loadCatalog catalog3) [0, 0, 0, 0, 0, 1, 1, 1, 1, 1]
          (initConfig 4 2)).mutex = some 1
      ∧ (runSchedule 4 blackBox90 (loadCatalog catalog3)
          [0, 0, 0, 0, 0, 1, 1, 1, 1, 1, 1, 1, 1, 1, 1] (initConfig 4 2)).g.count = 1
      ∧ (runSchedule 4 blackBox90 (loadCatalog catalog3)
          [0, 0, 0, 0, 0, 1, 1, 1, 1, 1, 1, 1, 1, 1, 1]
          (initConfig 4 2)).g.distance_calculated 0 1 = 1
      ∧ (runSchedule 4 blackBox90 (loadCatalog catalog3)
          [0, 0, 0, 0, 0, 1, 1, 1, 1, 1, 1, 1, 1, 1, 1]
          (initConfig 4 2)).g.distance_calculated 2 0 = 1
      ∧ ((runSchedule 4 blackBox90 (loadCatalog catalog3)
          [0, 0, 0, 0, 0, 1, 1, 1, 1, 1, 1, 1, 1, 1, 1] (initConfig 4 2)).workers 0).pc
        = Pc.lock := by
  refine ⟨?_, ?_, by decide, by decide, by decide, by decide, by decide, by decide,
    by decide, by decide, by decide, by decide, by decide⟩
  · intro h
    have h1 := h [0, 0, 0] 0 (by decide)
    exact absurd h1 (by decide)
  · intro h
    have h1 := h [0, 0, 0, 0, 0, 1, 1, 1, 1, 1] 0 1 (by decide) (by decide)
    exact absurd h1 (by decide)

/-- C8 (amended): under every schedule of the workers, a worker is at one of the statements
between `pthread_mutex_lock` and `pthread_mutex_unlock` (`count++`, the `min` test, the `max`
test, the mean, the unlock) exactly when it holds the mutex, so two workers are never there
together; a worker at one of the two marking statements does not hold the mutex. -/
theorem accumulator_update_under_mutex (N T : Nat) (c0 : DistanceFn) (arr : Nat → Star)
    (schedule : List Nat) :
    (∀ t, ((runSchedule N c0 arr schedule (initConfig N T)).workers t).pc.locked = true
        ↔ (runSchedule N c0 arr schedule (initConfig N T)).mutex = some t)
      ∧ (∀ t u,
          ((runSchedule N c0 arr schedule (initConfig N T)).workers t).pc.locked = true →
          ((runSchedule N c0 arr schedule (initConfig N T)).workers u).pc.locked = true →
          t = u)
      ∧ (∀ t, ((runSchedule N c0 arr schedule (initConfig N T)).workers t).pc = Pc.mark1
          ∨ ((runSchedule N c0 arr schedule (initConfig N T)).workers t).pc = Pc.mark2 →
          (runSchedule N c0 arr schedule (initConfig N T)).mutex ≠ some t) := by
  have h := reachable_mutexInv N T c0 arr schedule
  refine ⟨h, ?_, ?_⟩
  · intro t u ht hu
    have h1 := (h t).mp ht
    have h2 := (h u).mp hu
    rw [h1] at h2
    exact Option.some.inj h2
  · intro t hpc hm
    have h1 := (h t).mpr hm
    rcases hpc with hpc | hpc
    · rw [hpc] at h1
      exact Bool.false_ne_true h1
    · rw [hpc] at h1
      exact Bool.false_ne_true h1

theorem accumulator_update_under_mutex_witness :
    ((runSchedule 4 blackBox90 (loadCatalog catalog3) [0, 0, 0, 0, 0, 1, 1, 1, 1, 1]
        (initConfig 4 2)).workers 1).pc.locked = true
      ∧ (runSchedule 4 blackBox90 (loadCatalog catalog3) [0, 0, 0, 0, 0, 1, 1, 1, 1, 1]
        (initConfig 4 2)).mutex = some 1
      ∧ (runSchedule 4 blackBox90 (loadCatalog catalog3) [0, 0, 0]
        (initConfig 4 2)).mutex ≠ some 0 :=
  ⟨by decide,
    ((accumulator_update_under_mutex 4 2 blackBox90 (loadCatalog catalog3)
      [0, 0, 0, 0, 0, 1, 1, 1, 1, 1]).1 1).mp (by decide),
    (accumulator_update_under_mutex 4 2 blackBox90 (loadCatalog catalog3)
      [0, 0, 0]).2.2 0 (Or.inl (by decide))⟩

/-- C9: from an all-zero matrix, after the loop body of a worker or of the sequential path
has run at any list of visits, the matrix is symmetric and its diagonal is zero; a body
whose visit has `i = j` or a cell already set changes nothing. -/
theorem coverage_matrix_invariant (c : DistanceFn) (arr : Nat → Star)
    (vs : List (Nat × Nat)) (g : Globals) (s : SeqState)
    (hg : ∀ a b, g.distance_calculated a b = 0)
    (hs : ∀ a b, s.g.distance_calculated a b = 0) :
    ((∀ i j, (threadVisits c arr vs g).distance_calculated i j
          = (threadVisits c arr vs g).distance_calculated j i)
        ∧ ∀ i, (threadVisits c arr vs g).distance_calculated i i = 0)
      ∧ ((∀ i j, (seqVisits c arr vs s).g.distance_calculated i j
          = (seqVisits c arr vs s).g.distance_calculated j i)
        ∧ ∀ i, (seqVisits c arr vs s).g.distance_calculated i i = 0)
      ∧ (∀ (i j : Nat) (g1 : Globals), i = j ∨ g1.distance_calculated i j ≠ 0 →
          threadBody c arr i j g1 = g1)
      ∧ (∀ (i j : Nat) (s1 : SeqState), i = j ∨ s1.g.distance_calculated i j ≠ 0 →
          seqBody c arr i j s1 = s1) := by
  have hzero : ∀ m : Nat → Nat → Nat, (∀ a b, m a b = 0) → SymDiag m :=
    fun m hm => ⟨fun a b => by rw [hm a b, hm b a], fun a => hm a a⟩
  refine ⟨threadVisits_symDiag c arr vs g (hzero _ hg), ?_, ?_, ?_⟩
  · have h := threadVisits_symDiag c arr vs s.toGlobals (hzero _ hs)
    rw [← seqVisits_toGlobals] at h
    exact h
  · intro i j g1 h
    apply threadBody_skip
    rintro ⟨h1, h2⟩
    rcases h with h | h
    · exact h1 h
    · exact h h2
  · intro i j s1 h
    apply seqBody_skip
    rintro ⟨h1, h2⟩
    rcases h with h | h
    · exact h1 h
    · exact h h2

theorem coverage_matrix_invariant_witness :
    (∀ a b, initGlobals.distance_calculated a b = 0)
      ∧ (threadVisits blackBox90 (loadCatalog catalog3) [(0, 1), (1, 0), (2, 2), (1, 2)]
          initGlobals).distance_calculated 2 1
        = (threadVisits blackBox90 (loadCatalog catalog3) [(0, 1), (1, 0), (2, 2), (1, 2)]
          initGlobals).distance_calculated 1 2 :=
  ⟨fun _ _ => rfl,
    (coverage_matrix_invariant blackBox90 (loadCatalog catalog3)
      [(0, 1), (1, 0), (2, 2), (1, 2)] initGlobals { g := initGlobals, mean := 0, count := 0 }
      (fun _ _ => rfl) (fun _ _ => rfl)).1.1 2 1⟩

/-- C10: for `1 ≤ T ≤ N`, the `T` workers run one after another in any order from the
initial globals. The worker calls all return; the cells set at the end are the off-diagonal
cells with a row or a column below `T * (N / T)`; `count` is the number of pairs `i < j < N`
with an index below `T * (N / T)` (the list `upperPairsBelow` holds each of them once), which
is `N * (N - 1) / 2 - r * (r - 1) / 2` for `r = N % T`; and every pair is covered exactly
when `r ≤ 1`. -/
theorem workers_any_order (N T : Nat) (c : DistanceFn) (arr : Nat → Star) (order : List Nat)
    (hT : 1 ≤ T) (hN : T ≤ N) (horder : order.Perm (List.range T)) :
    ∃ g, runWorkers N T c arr order initGlobals = some g
      ∧ (∀ i j, i < N → j < N →
          (g.distance_calculated i j = 1 ↔ i ≠ j ∧ (i < T * (N / T) ∨ j < T * (N / T))))
      ∧ g.count = (upperPairsBelow N (T * (N / T))).length
      ∧ (upperPairsBelow N (T * (N / T))).Nodup
      ∧ (∀ i j, (i, j) ∈ upperPairsBelow N (T * (N / T))
          ↔ i < j ∧ j < N ∧ (i < T * (N / T) ∨ j < T * (N / T)))
      ∧ g.count = N * (N - 1) / 2 - N % T * (N % T - 1) / 2
      ∧ ((∀ i j, i < N → j < N → i ≠ j → g.distance_calculated i j = 1) ↔ N % T ≤ 1) := by
  have hmem : ∀ t, t ∈ order ↔ t < T := fun t => by rw [horder.mem_iff, List.mem_range]
  obtain ⟨g, h1, h2, h3, h4⟩ := workers_result N T c arr order hT hN hmem
  have hcell : ∀ i j, i < N → j < N →
      (g.distance_calculated i j = 1 ↔ i ≠ j ∧ (i < T * (N / T) ∨ j < T * (N / T))) := by
    intro i j hi hj
    rw [h2 i j]
    constructor
    · intro h
      by_contra hcon
      rw [if_neg (fun k => hcon ⟨k.1, k.2.2.2⟩)] at h
      exact zero_ne_one h
    · rintro ⟨k1, k2⟩
      rw [if_pos ⟨k1, hi, hj, k2⟩]
  have hmod : T * (N / T) + N % T = N := Nat.div_add_mod N T
  refine ⟨g, h1, hcell, h3, nodup_upperPairsBelow N _, mem_upperPairsBelow_iff N _, h4, ?_⟩
  constructor
  · intro hall
    by_contra hr
    have h5 := (hcell (N - 1) (N - 2) (by omega) (by omega)).mp
      (hall (N - 1) (N - 2) (by omega) (by omega) (by omega))
    omega
  · intro hr i j hi hj hij
    exact (hcell i j hi hj).mpr ⟨hij, by omega⟩

theorem workers_any_order_witness :
    1 ≤ 7 ∧ 7 ≤ NUM_STARS ∧ ((List.range 7).reverse).Perm (List.range 7)
      ∧ ∃ g, runWorkers NUM_STARS 7 blackBox90 (loadCatalog catalog3) (List.range 7).reverse
            initGlobals = some g
        ∧ g.count
          = NUM_STARS * (NUM_STARS - 1) / 2 - NUM_STARS % 7 * (NUM_STARS % 7 - 1) / 2 := by
  obtain ⟨g, h1, _, _, _, _, h6, _⟩ := workers_any_order NUM_STARS 7 blackBox90
    (loadCatalog catalog3) (List.range 7).reverse (by decide) (by decide)
    (List.reverse_perm (List.range 7))
  exact ⟨by decide, by decide, List.reverse_perm (List.range 7), g, h1, h6⟩

end StarCatalog
